import Mathlib

/-!
Shallow embedding of the trade-to-position reconciliation engine of
OraclePortfolioManager (files `analytics/python/schwab_backfill.py` and
`analytics/portfolio_registry.py`), together with theorems settling the
spec claims about it.

Modelling conventions:
* Python `float` money/price values are modelled as exact rationals (`Rat`);
  Python `int` as `Int`/`Nat`.
* The SQLite database is modelled as explicit state: a list of position rows
  and a list of trade rows plus the autoincrement counters.
* Python exceptions are modelled with `Except String`; `Option` models
  functions that convert failure to `None` internally.
-/

namespace OPM

/-- A calendar date, as produced by Python `datetime.date`. -/
structure SDate where
  year : Nat
  month : Nat
  day : Nat
deriving DecidableEq, Repr

/-- Python `datetime.date` validity: `date(year, month, day)` raises
`ValueError` unless the month and day are in range. -/
def isLeapYear (y : Nat) : Bool :=
  (y % 4 == 0 && y % 100 != 0) || (y % 400 == 0)

def daysInMonth (y m : Nat) : Nat :=
  if m = 2 then (if isLeapYear y then 29 else 28)
  else if m = 4 ∨ m = 6 ∨ m = 9 ∨ m = 11 then 30
  else 31

/-- `datetime.date(y, m, d)`: `some` on valid dates, `none` models `ValueError`. -/
def mkDate (y m d : Int) : Option SDate :=
  if 1 ≤ m ∧ m ≤ 12 ∧ 1 ≤ d ∧ d ≤ daysInMonth y.toNat m.toNat ∧ 1 ≤ y ∧ y ≤ 9999 then
    some ⟨y.toNat, m.toNat, d.toNat⟩
  else none

/-- A Python `datetime.datetime` value (microseconds and UTC offset kept,
though the code formats with second precision and a literal `Z`). -/
structure PyDateTime where
  date : SDate
  hour : Nat
  minute : Nat
  second : Nat
  micro : Nat
  tzMin : Option Int
deriving DecidableEq, Repr

def pad2 (n : Nat) : String :=
  if n < 10 then "0" ++ toString n else toString n

def pad4 (n : Nat) : String :=
  if n < 10 then "000" ++ toString n
  else if n < 100 then "00" ++ toString n
  else if n < 1000 then "0" ++ toString n
  else toString n

/-- Python `date.isoformat()`. -/
def SDate.isoformat (d : SDate) : String :=
  pad4 d.year ++ "-" ++ pad2 d.month ++ "-" ++ pad2 d.day

/-- `dt.strftime("%Y-%m-%dT%H:%M:%SZ")` as used throughout the backfill. -/
def strftimeZ (dt : PyDateTime) : String :=
  dt.date.isoformat ++ "T" ++ pad2 dt.hour ++ ":" ++ pad2 dt.minute ++ ":"
    ++ pad2 dt.second ++ "Z"

/-- `datetime.date()` on a datetime. -/
def PyDateTime.toDate (dt : PyDateTime) : SDate := dt.date

-- --- String primitives (structural re-implementations of the Python string
-- operations used, over the character list of a string) ------------------------

/-- Python `str.upper()` (ASCII letters, as the code's keywords are ASCII). -/
def asciiUpper (s : String) : String := String.mk (s.data.map Char.toUpper)

/-- Python `str.strip()`. -/
def strTrim (s : String) : String :=
  String.mk (((s.data.dropWhile Char.isWhitespace).reverse.dropWhile
    Char.isWhitespace).reverse)

/-- Python `s.endswith(t)`. -/
def strEndsWith (s suffix : String) : Bool := suffix.data.isSuffixOf s.data

/-- Python `s.startswith(t)`. -/
def strStartsWith (s pre : String) : Bool := pre.data.isPrefixOf s.data

/-- Python `s[:-n]` (drop the last `n` characters). -/
def strDropRight (s : String) (n : Nat) : String :=
  String.mk (s.data.take (s.data.length - n))

def subOccurs (needle : List Char) : List Char → Bool
  | [] => needle.isEmpty
  | c :: rest => needle.isPrefixOf (c :: rest) || subOccurs needle rest

/-- Python substring membership `pat in s`. -/
def strContains (s pat : String) : Bool := subOccurs pat.data s.data

-- --- ISO datetime parsing (`datetime.fromisoformat` fragment) ---------------

def digitVal (c : Char) : Nat := c.toNat - '0'.toNat

def twoDigits : List Char → Option (Nat × List Char)
  | a :: b :: rest =>
      if a.isDigit && b.isDigit then some (digitVal a * 10 + digitVal b, rest)
      else none
  | _ => none

def fourDigits : List Char → Option (Nat × List Char)
  | a :: b :: c :: d :: rest =>
      if a.isDigit && b.isDigit && c.isDigit && d.isDigit then
        some (digitVal a * 1000 + digitVal b * 100 + digitVal c * 10 + digitVal d, rest)
      else none
  | _ => none

def expectChar (c : Char) : List Char → Option (List Char)
  | x :: rest => if x = c then some rest else none
  | [] => none

/-- Parse the `YYYY-MM-DD` prefix, validating the calendar date. -/
def parseIsoDate (cs : List Char) : Option (SDate × List Char) := do
  let (y, cs) ← fourDigits cs
  let cs ← expectChar '-' cs
  let (m, cs) ← twoDigits cs
  let cs ← expectChar '-' cs
  let (d, cs) ← twoDigits cs
  let date ← mkDate y m d
  pure (date, cs)

/-- Parse an optional fractional-second field `.fff` / `.ffffff`. -/
def parseFraction : List Char → Option (Nat × List Char)
  | '.' :: rest =>
      let digs := rest.takeWhile Char.isDigit
      let rest' := rest.dropWhile Char.isDigit
      if digs.length = 3 then
        some (digs.foldl (fun a c => a * 10 + digitVal c) 0 * 1000, rest')
      else if digs.length = 6 then
        some (digs.foldl (fun a c => a * 10 + digitVal c) 0, rest')
      else none
  | cs => some (0, cs)

/-- Parse an optional trailing UTC offset `±HH:MM`. -/
def parseOffset : List Char → Option (Option Int × List Char)
  | [] => some (none, [])
  | c :: rest =>
      if c = '+' ∨ c = '-' then do
        let (h, cs) ← twoDigits rest
        let cs ← expectChar ':' cs
        let (m, cs) ← twoDigits cs
        if h ≤ 23 ∧ m ≤ 59 then
          let total : Int := (h : Int) * 60 + (m : Int)
          pure (some (if c = '-' then -total else total), cs)
        else none
      else none

/-- Parse the time-of-day part `HH[:MM[:SS[.ffffff]]][±HH:MM]`. -/
def parseIsoTime (cs : List Char) : Option (Nat × Nat × Nat × Nat × Option Int) := do
  let (h, cs) ← twoDigits cs
  let (mi, cs) ←
    match cs with
    | ':' :: rest => twoDigits rest
    | _ => some (0, cs)
  let (s, cs) ←
    match cs with
    | ':' :: rest => twoDigits rest
    | _ => some (0, cs)
  let (us, cs) ← parseFraction cs
  let (tz, cs) ← parseOffset cs
  if cs = [] ∧ h ≤ 23 ∧ mi ≤ 59 ∧ s ≤ 59 then
    pure (h, mi, s, us, tz)
  else none

/-- The fragment of Python `datetime.fromisoformat` the code relies on:
`YYYY-MM-DD` optionally followed by a one-character separator and
`HH:MM[:SS[.fff|.ffffff]][±HH:MM]`. -/
def fromisoformat (s : String) : Option PyDateTime := do
  let (d, cs) ← parseIsoDate s.toList
  match cs with
  | [] => pure { date := d, hour := 0, minute := 0, second := 0, micro := 0, tzMin := none }
  | _ :: rest => do
      let (h, mi, sec, us, tz) ← parseIsoTime rest
      pure { date := d, hour := h, minute := mi, second := sec, micro := us, tzMin := tz }

/-- `_parse_schwab_datetime`: strip, map a trailing `Z` to `+00:00`, insert a
colon into a `±HHMM` offset, then `datetime.fromisoformat`; `none` on failure. -/
def parseSchwabDatetime (dt_str : String) : Option PyDateTime :=
  let s := strTrim dt_str
  if s = "" then none
  else
    let s :=
      if strEndsWith s "Z" then (strDropRight s 1) ++ "+00:00"
      else
        let cs := s.toList
        let n := cs.length
        if 5 ≤ n then
          let c5 := cs.getD (n - 5) ' '
          let c2 := cs.getD (n - 2) ' '
          let c1 := cs.getD (n - 1) ' '
          let c3 := cs.getD (n - 3) ' '
          if (c5 = '+' ∨ c5 = '-') ∧ c2.isDigit ∧ c1.isDigit ∧ c3 ≠ ':' then
            String.mk (cs.take (n - 2)) ++ ":" ++ String.mk (cs.drop (n - 2))
          else s
        else s
    fromisoformat s

-- --- Normalized trade event ---------------------------------------------------

/-- The `TradeEvent` dataclass of `schwab_backfill.py`. -/
structure TradeEvent where
  account_number : String
  symbol : String
  option_type : String
  strike : Rat
  expiration : SDate
  direction : String
  open_close : String
  quantity : Int
  price : Rat
  commissions : Rat
  fees : Rat
  trade_datetime : PyDateTime
  underlying_price : Option Rat
  schwab_order_id : Option String
  schwab_leg_id : Option String
deriving DecidableEq, Repr

/-- `derive_action_from_event`: map direction/open_close to a `trades.action`
string, with the UNKNOWN-qualifier fallback (SELL→open, BUY→close). -/
def derive_action_from_event (ev : TradeEvent) : Option String :=
  let direction := asciiUpper ev.direction
  let oc := asciiUpper ev.open_close
  let base? : Option String :=
    if oc = "OPENING" then some "OPEN"
    else if oc = "CLOSING" then some "CLOSE"
    else if direction = "SELL" then some "OPEN"
    else if direction = "BUY" then some "CLOSE"
    else none
  match base? with
  | none => none
  | some base =>
      if direction = "BUY" ∨ direction = "SELL" then some (direction ++ "_" ++ base)
      else none

def splitSideAux (acc : List Char) : List Char → String × String
  | [] => (String.mk acc.reverse, "")
  | '_' :: rest => (String.mk acc.reverse, String.mk rest)
  | c :: rest => splitSideAux (c :: acc) rest

/-- `action.split("_", 1)` into side and phase (the resolver only ever
produces actions containing an underscore). -/
def splitSide (action : String) : String × String := splitSideAux [] action.data

/-- The signed contract delta computed in `apply_trade_event_to_db`
(lines 452–458): open buys and close buys are positive, open sells and
close sells are negative. -/
def signed_contracts (action : String) (qty : Int) : Int :=
  let sp := splitSide action
  if sp.2 = "OPEN" then (if sp.1 = "BUY" then qty else -qty)
  else (if sp.1 = "SELL" then -qty else qty)

-- --- Python/JSON value model --------------------------------------------------

/-- A JSON value as held by the Python code (loosely-typed nested maps).
Numbers are modelled as exact rationals. -/
inductive JVal where
  | null
  | bool (b : Bool)
  | num (q : Rat)
  | str (s : String)
  | arr (xs : List JVal)
  | obj (fields : List (String × JVal))

def JVal.isNull : JVal → Bool
  | .null => true
  | _ => false

/-- Python truthiness of a value. -/
def pyTruthy : JVal → Bool
  | .null => false
  | .bool b => b
  | .num q => q != 0
  | .str s => s ≠ ""
  | .arr xs => !xs.isEmpty
  | .obj fs => !fs.isEmpty

/-- Python `a or b`. -/
def pyOr (a b : JVal) : JVal := if pyTruthy a then a else b

def objFind (fields : List (String × JVal)) (k : String) : Option JVal :=
  (fields.find? fun f => f.1 == k).map Prod.snd

/-- `d.get(k)` on a dict. -/
def dictGet (fields : List (String × JVal)) (k : String) : JVal :=
  (objFind fields k).getD .null

/-- `d.get(k, default)` on a dict. -/
def dictGetD (fields : List (String × JVal)) (k : String) (dflt : JVal) : JVal :=
  (objFind fields k).getD dflt

/-- `k in d` on a dict. -/
def dictHasKey (fields : List (String × JVal)) (k : String) : Bool :=
  (objFind fields k).isSome

/-- Python `str()` of a value. Strings, integers, booleans and `None` are
rendered exactly; non-integer numbers and containers are rendered with
placeholder text, which the embedded code only ever compares against
fixed uppercase keywords they cannot collide with. -/
def pyStr : JVal → String
  | .null => "None"
  | .bool b => if b then "True" else "False"
  | .num q => if q.den = 1 then toString q.num else "<float>"
  | .str s => s
  | .arr _ => "<list>"
  | .obj _ => "<dict>"

def digitsToNat (cs : List Char) : Nat :=
  cs.foldl (fun a c => a * 10 + digitVal c) 0

/-- Python `int()` applied to a string: optional surrounding whitespace,
optional sign, decimal digits. -/
def pyIntOfString (s : String) : Option Int :=
  let cs := (strTrim s).toList
  let sign : Int := if cs.head? = some '-' then -1 else 1
  let cs := if cs.head? = some '-' ∨ cs.head? = some '+' then cs.tail else cs
  if cs ≠ [] ∧ cs.all Char.isDigit then some (sign * (digitsToNat cs : Int)) else none

/-- Python `float()` applied to a string: optional sign and a decimal literal
`ddd`, `ddd.`, `.ddd` or `ddd.ddd`. -/
def pyFloatOfString (s : String) : Option Rat :=
  let cs := (strTrim s).toList
  let sign : Rat := if cs.head? = some '-' then -1 else 1
  let cs := if cs.head? = some '-' ∨ cs.head? = some '+' then cs.tail else cs
  let intPart := cs.takeWhile Char.isDigit
  let rest := cs.dropWhile Char.isDigit
  match rest with
  | [] => if intPart ≠ [] then some (sign * (digitsToNat intPart : Rat)) else none
  | '.' :: frac =>
      if frac.all Char.isDigit ∧ (intPart ≠ [] ∨ frac ≠ []) then
        some (sign * ((digitsToNat intPart : Rat) +
          (digitsToNat frac : Rat) / ((10 : Rat) ^ frac.length)))
      else none
  | _ => none

/-- Truncation toward zero, as Python `int()` does on floats. -/
def ratTrunc (q : Rat) : Int := if 0 ≤ q then ⌊q⌋ else ⌈q⌉

/-- Python `int()` of a value, `none` when it raises. -/
def pyInt : JVal → Option Int
  | .num q => some (ratTrunc q)
  | .bool b => some (if b then 1 else 0)
  | .str s => pyIntOfString s
  | _ => none

/-- Python `float()` of a value, `none` when it raises. -/
def pyFloat : JVal → Option Rat
  | .num q => some q
  | .bool b => some (if b then 1 else 0)
  | .str s => pyFloatOfString s
  | _ => none

instance {ε α : Type} [DecidableEq ε] [DecidableEq α] : DecidableEq (Except ε α) := fun a b =>
  match a, b with
  | .error e, .error f =>
      if h : e = f then isTrue (by rw [h]) else isFalse (fun hh => by cases hh; exact h rfl)
  | .ok x, .ok y =>
      if h : x = y then isTrue (by rw [h]) else isFalse (fun hh => by cases hh; exact h rfl)
  | .error _, .ok _ => isFalse (fun hh => by cases hh)
  | .ok _, .error _ => isFalse (fun hh => by cases hh)

-- --- Schwab JSON → TradeEvent normalizer --------------------------------------

/-- `_parse_occ_option_symbol`: fixed-width OCC layout, `none` when the
symbol is too short or a field fails integer/date conversion. -/
def parseOccSymbol (s : String) : Option (SDate × Rat) :=
  let cs := s.toList
  if cs.length < 21 then none
  else do
    let yy ← pyIntOfString (String.mk ((cs.drop 6).take 2))
    let mm ← pyIntOfString (String.mk ((cs.drop 8).take 2))
    let dd ← pyIntOfString (String.mk ((cs.drop 10).take 2))
    let exp ← mkDate (2000 + yy) mm dd
    let strike_int ← pyIntOfString (String.mk ((cs.drop 13).take 8))
    pure (exp, (strike_int : Rat) / 1000)

/-- `_parse_schwab_datetime` applied to an arbitrary value: a non-string
truthy argument raises (`.strip()` on a non-string), falsy arguments
degrade to `""` and parse to `none`. -/
def parseSchwabOfJVal : JVal → Except String (Option PyDateTime)
  | .str s => .ok (parseSchwabDatetime s)
  | v => if pyTruthy v then .error "AttributeError" else .ok none

/-- `_parse_occ_option_symbol` applied to an arbitrary value: `len()` works
on strings and containers (the conversions inside the `try` then fail to
`none` for containers) but raises on truthy numbers and booleans. -/
def parseOccOfJVal : JVal → Except String (Option (SDate × Rat))
  | .str s => .ok (parseOccSymbol s)
  | .arr _ => .ok none
  | .obj _ => .ok none
  | v => if pyTruthy v then .error "TypeError" else .ok none

/-- First execution leg's price, `none` when the guarded conversion raises
(caught by the surrounding `try`). -/
def tryExecPrice (exec_legs : JVal) : Option Rat :=
  match exec_legs with
  | .arr (x :: _) =>
      match x with
      | .obj xfs => pyFloat (pyOr (dictGetD xfs "price" (.num 0)) (.num 0))
      | _ => none
  | _ => none

/-- The scan over `orderActivityCollection` looking for an EXECUTION price,
breaking at the first positive fill price. -/
def scanActivities (fp : Rat) : List JVal → Except String Rat
  | [] => .ok fp
  | act :: rest =>
      match act with
      | .obj afs =>
          if asciiUpper (pyStr (dictGetD afs "activityType" (.str ""))) = "EXECUTION" then
            let el := pyOr (dictGet afs "executionLegs") (.arr [])
            if pyTruthy el then
              let fp' := (tryExecPrice el).getD fp
              if fp' > 0 then .ok fp' else scanActivities fp' rest
            else scanActivities fp rest
          else scanActivities fp rest
      | _ => .error "AttributeError"

/-- Fill-price derivation for one order: prefer the first positive execution
price, fall back to the order-level price (0 on conversion failure). -/
def computeFillPrice (fs : List (String × JVal)) : Except String Rat := do
  let acts := pyOr (dictGet fs "orderActivityCollection") (.arr [])
  let fp ←
    match acts with
    | .arr l => scanActivities 0 l
    | _ => Except.ok (0 : Rat)
  if fp ≤ 0 then
    pure ((pyFloat (pyOr (dictGetD fs "price" (.num 0)) (.num 0))).getD 0)
  else pure fp

/-- The string stored into a `str`-typed dataclass field: Python keeps the
raw value, which is its own rendering when it is a string. -/
def strField (v : JVal) : String :=
  match v with
  | .str s => s
  | v => pyStr v

/-- The tail of the leg body once expiration and strike are resolved:
quantity, direction, open/close qualifier and the event construction
(these steps cannot raise). -/
def mkLegEvent (account_hash : String) (order_id : Option String)
    (trade_dt : PyDateTime) (fill_price : Rat) (lfs : List (String × JVal))
    (option_type : String) (underlying : JVal) (expiration : SDate)
    (strike : Rat) : Option TradeEvent :=
  let quantity : Int :=
    ((pyInt (pyOr (dictGetD lfs "quantity" (.num 0)) (.num 0))).map
      (fun n => |n|)).getD 0
  if quantity ≤ 0 then none
  else
    let instruction := asciiUpper (pyStr (dictGetD lfs "instruction" (.str "")))
    if !strContains instruction "BUY" ∧ !strContains instruction "SELL" then none
    else
      let direction := if strContains instruction "BUY" then "BUY" else "SELL"
      let pos_effect := asciiUpper (pyStr (dictGetD lfs "positionEffect" (.str "")))
      let open_close :=
        if strContains pos_effect "OPEN" then "OPENING"
        else if strContains pos_effect "CLOSE" then "CLOSING"
        else "UNKNOWN"
      let leg_id :=
        if dictHasKey lfs "legId" then some (pyStr (dictGet lfs "legId")) else none
      some
        { account_number := account_hash
          symbol := strField underlying
          option_type := option_type
          strike := strike
          expiration := expiration
          direction := direction
          open_close := open_close
          quantity := quantity
          price := fill_price
          commissions := 0
          fees := 0
          trade_datetime := trade_dt
          underlying_price := none
          schwab_order_id := order_id
          schwab_leg_id := leg_id }

/-- Structured-field expiration of a leg: `maturityDate`/`expirationDate`
parsed inside a `try` (failures and exceptions degrade to `none`). -/
def legExpiration0 (instrFs : List (String × JVal)) : Option SDate :=
  let exp_str := pyOr (dictGet instrFs "maturityDate") (dictGet instrFs "expirationDate")
  if pyTruthy exp_str then
    match parseSchwabOfJVal exp_str with
    | .ok (some dt) => some dt.toDate
    | _ => none
  else none

/-- Structured-field strike of a leg: `float(strikePrice)` guarded by an
`is not None` check, conversion failures degrade to `none`. -/
def legStrike0 (instrFs : List (String × JVal)) : Option Rat :=
  let raw_strike := dictGet instrFs "strikePrice"
  if !raw_strike.isNull then pyFloat raw_strike else none

/-- The OCC-symbol fallback: attempted only when expiration or strike is
still missing and the symbol is truthy; can raise on truthy non-sized
values. -/
def legPair (instrFs : List (String × JVal)) (e0 : Option SDate) (s0 : Option Rat) :
    Except String (Option (SDate × Rat)) :=
  if e0.isNone ∨ s0.isNone then
    let occ_sym := dictGet instrFs "symbol"
    if pyTruthy occ_sym then parseOccOfJVal occ_sym else pure none
  else pure none

/-- The per-leg body of `normalize_orders_json`: `none` for a skipped leg,
`some` for an emitted event, `error` when the Python would raise. -/
def processLeg (account_hash : String) (order_id : Option String)
    (trade_dt : PyDateTime) (fill_price : Rat) (leg : JVal) :
    Except String (Option TradeEvent) :=
  match leg with
  | .obj lfs => do
      let leg_type := asciiUpper (pyStr (dictGetD lfs "orderLegType" (.str "")))
      let instrV := pyOr (dictGet lfs "instrument") (.obj [])
      let instrFs ←
        match instrV with
        | .obj fs => Except.ok fs
        | _ => Except.error "AttributeError"
      let asset_type := asciiUpper (pyStr (dictGetD instrFs "assetType" (.str "")))
      if !strContains leg_type "OPTION" ∧ asset_type ≠ "OPTION" then pure none
      else
      let put_call := dictGet instrFs "putCall"
      if !pyTruthy put_call then pure none
      else
      let option_type := if strStartsWith (asciiUpper (pyStr put_call)) "C" then "CALL" else "PUT"
      let underlying := pyOr (dictGet instrFs "underlyingSymbol") (dictGet instrFs "symbol")
      if !pyTruthy underlying then pure none
      else do
      let expiration0 := legExpiration0 instrFs
      let strike0 := legStrike0 instrFs
      let pair ← legPair instrFs expiration0 strike0
      let expiration1 : Option SDate :=
        match pair with
        | some ek => expiration0 <|> some ek.1
        | none => expiration0
      let strike1 : Option Rat :=
        match pair with
        | some ek => strike0 <|> some ek.2
        | none => strike0
      match expiration1, strike1 with
      | some expiration, some strike =>
          pure (mkLegEvent account_hash order_id trade_dt fill_price lfs
            option_type underlying expiration strike)
      | _, _ => pure none
  | _ => .error "AttributeError"

/-- The leg loop, in order, collecting emitted events. -/
def processLegs (account_hash : String) (order_id : Option String)
    (trade_dt : PyDateTime) (fill_price : Rat) :
    List JVal → Except String (List TradeEvent)
  | [] => .ok []
  | leg :: rest => do
      let ev? ← processLeg account_hash order_id trade_dt fill_price leg
      let more ← processLegs account_hash order_id trade_dt fill_price rest
      pure (match ev? with | some ev => ev :: more | none => more)

/-- The resolved entry-time value of an order: `enteredTime or closeTime`. -/
def enteredValue (fs : List (String × JVal)) : JVal :=
  pyOr (dictGet fs "enteredTime") (dictGet fs "closeTime")

/-- The per-order body of `normalize_orders_json`: non-FILLED orders and
orders with missing or unparsable timestamps contribute no events. -/
def processOrder (account_hash : String) (order : JVal) :
    Except String (List TradeEvent) :=
  match order with
  | .obj fs => do
      let status := asciiUpper (pyStr (dictGetD fs "status" (.str "")))
      if status ≠ "FILLED" then pure []
      else do
        let order_id :=
          if dictHasKey fs "orderId" then some (pyStr (dictGet fs "orderId")) else none
        let etv := enteredValue fs
        let trade_dt? ← if pyTruthy etv then parseSchwabOfJVal etv else pure none
        match trade_dt? with
        | none => pure []
        | some trade_dt =>
            match pyOr (dictGet fs "orderLegCollection") (.arr []) with
            | .arr legs => do
                let fp ← computeFillPrice fs
                processLegs account_hash order_id trade_dt fp legs
            | _ => pure []
  | _ => .error "AttributeError"

/-- The order loop of `normalize_orders_json`. -/
def processOrders (account_hash : String) : List JVal → Except String (List TradeEvent)
  | [] => .ok []
  | o :: rest => do
      let evs ← processOrder account_hash o
      let more ← processOrders account_hash rest
      pure (evs ++ more)

/-- `normalize_orders_json`: a non-list payload yields no events; otherwise
every order is processed in sequence. An uncaught Python exception is an
`error` result. -/
def normalize_orders_json (account_hash : String) (raw : JVal) :
    Except String (List TradeEvent) :=
  match raw with
  | .arr orders => processOrders account_hash orders
  | _ => .ok []

-- --- Database model -----------------------------------------------------------

/-- A row of the `positions` table (the columns the backfill touches). -/
structure Position where
  id : Nat
  symbol : String
  strategy : String
  contracts : Int
  status : String
  strike : Rat
  expiration : String
  entry_price : Rat
  mark : Rat
  total_credit : Rat
  total_debit : Rat
  commissions : Rat
  fees : Rat
  entry_date : String
  last_updated : String
deriving DecidableEq, Repr

/-- A row of the `trades` table. -/
structure Trade where
  id : Nat
  position_id : Nat
  trade_datetime : String
  action : String
  contracts : Int
  price : Rat
  commissions : Rat
  fees : Rat
  underlying_price : Option Rat
  notes : String
deriving DecidableEq, Repr

/-- The SQLite database state: both tables plus the rowid counters. -/
structure DB where
  positions : List Position
  trades : List Trade
  nextPositionId : Nat
  nextTradeId : Nat
deriving DecidableEq, Repr

/-- Strategy classification in `find_or_create_position_id`: any pair other
than SELL+PUT, SELL+CALL, BUY+PUT falls to `LongCall`. -/
def strategyFor (ev : TradeEvent) : String :=
  if ev.direction = "SELL" ∧ ev.option_type = "PUT" then "ShortPut"
  else if ev.direction = "SELL" ∧ ev.option_type = "CALL" then "ShortCall"
  else if ev.direction = "BUY" ∧ ev.option_type = "PUT" then "LongPut"
  else "LongCall"

/-- The row filter of the position-lookup query: same symbol, strategy,
strike, expiration, and status `OPEN` or `EXPIRED`. -/
def posMatches (ev : TradeEvent) (p : Position) : Bool :=
  decide (p.symbol = ev.symbol ∧ p.strategy = strategyFor ev ∧ p.strike = ev.strike ∧
    p.expiration = ev.expiration.isoformat ∧ (p.status = "OPEN" ∨ p.status = "EXPIRED"))

/-- Minimum of a list of naturals, `none` on the empty list; models
`ORDER BY id ASC ... fetchone()`. -/
def minId? : List Nat → Option Nat
  | [] => none
  | x :: xs =>
      match minId? xs with
      | none => some x
      | some m => some (Nat.min x m)

/-- The ids of the rows the lookup query returns, and the fetched first one. -/
def matchIds (db : DB) (ev : TradeEvent) : List Nat :=
  (db.positions.filter (posMatches ev)).map Position.id

/-- The fresh position row inserted when no OPEN/EXPIRED match exists:
contracts 0, status OPEN, entry price and mark from the fill, zero
accumulators, entry and last-updated timestamps from the event. -/
def newPositionFrom (db : DB) (ev : TradeEvent) : Position :=
  { id := db.nextPositionId
    symbol := ev.symbol
    strategy := strategyFor ev
    contracts := 0
    status := "OPEN"
    strike := ev.strike
    expiration := ev.expiration.isoformat
    entry_price := ev.price
    mark := ev.price
    total_credit := 0
    total_debit := 0
    commissions := 0
    fees := 0
    entry_date := strftimeZ ev.trade_datetime
    last_updated := strftimeZ ev.trade_datetime }

/-- `find_or_create_position_id`: return the oldest OPEN/EXPIRED row matching
the composite key, or insert (and commit) a new one and return its rowid. -/
def find_or_create_position_id (db : DB) (ev : TradeEvent) : DB × Nat :=
  match minId? (matchIds db ev) with
  | some i => (db, i)
  | none =>
      ({ db with
          positions := db.positions ++ [newPositionFrom db ev]
          nextPositionId := db.nextPositionId + 1 },
        db.nextPositionId)

/-- Natural-key duplicate test on the `trades` table. -/
def tradeKeyExists (db : DB) (pid : Nat) (dt action : String) (contracts : Int)
    (price : Rat) : Bool :=
  db.trades.any fun t =>
    decide (t.position_id = pid ∧ t.trade_datetime = dt ∧ t.action = action ∧
      t.contracts = contracts ∧ t.price = price)

/-- Outcome of one `apply_trade_event_to_db` call (its observable report). -/
inductive ApplyOutcome where
  | skippedUnknownAction
  | duplicate
  | dryRunReported (pid : Nat)
  | applied (pid : Nat) (delta : Int) (updatedRows : Nat)
deriving DecidableEq, Repr

def ApplyOutcome.isApplied : ApplyOutcome → Bool
  | .applied _ _ _ => true
  | _ => false

/-- The position update of the apply step, restricted by
`WHERE id = ? AND status IN ('OPEN','EXPIRED')`. -/
def updatePositionRow (pid : Nat) (delta : Int) (credit debit comm fees : Rat)
    (dt : String) (p : Position) : Position :=
  if p.id = pid ∧ (p.status = "OPEN" ∨ p.status = "EXPIRED") then
    { p with
        contracts := p.contracts + delta
        total_credit := p.total_credit + credit
        total_debit := p.total_debit + debit
        commissions := p.commissions + comm
        fees := p.fees + fees
        last_updated := dt }
  else p

/-- `gross = abs(ev.quantity * ev.price * 100.0)` (the ×100 is the option
contract multiplier). -/
def grossOf (ev : TradeEvent) : Rat := |(ev.quantity : Rat) * ev.price * 100|

/-- Credit attribution of one fill: the gross notional when the side is SELL. -/
def creditOf (action : String) (ev : TradeEvent) : Rat :=
  if (splitSide action).1 = "SELL" then grossOf ev else 0

/-- Debit attribution of one fill: the gross notional when the side is BUY. -/
def debitOf (action : String) (ev : TradeEvent) : Rat :=
  if (splitSide action).1 = "SELL" then 0 else grossOf ev

/-- The trade row inserted for a non-duplicate event. -/
def newTradeFrom (db1 : DB) (pos_id : Nat) (action : String) (contracts_signed : Int)
    (ev : TradeEvent) : Trade :=
  { id := db1.nextTradeId
    position_id := pos_id
    trade_datetime := strftimeZ ev.trade_datetime
    action := action
    contracts := contracts_signed
    price := ev.price
    commissions := ev.commissions
    fees := ev.fees
    underlying_price := ev.underlying_price
    notes := "Imported from Schwab" }

/-- `apply_trade_event_to_db`: resolve the action and signed delta, resolve
(or create) the owning position, skip natural-key duplicates, stop after
reporting when `dry_run`, otherwise insert the trade row and update the
position aggregates (restricted to OPEN/EXPIRED status). -/
def apply_trade_event_to_db (db : DB) (ev : TradeEvent) (dry_run : Bool) :
    DB × ApplyOutcome :=
  match derive_action_from_event ev with
  | none => (db, .skippedUnknownAction)
  | some action =>
      let contracts_signed := signed_contracts action ev.quantity
      let fc := find_or_create_position_id db ev
      let db1 := fc.1
      let pos_id := fc.2
      let trade_dt_str := strftimeZ ev.trade_datetime
      if tradeKeyExists db1 pos_id trade_dt_str action contracts_signed ev.price then
        (db1, .duplicate)
      else if dry_run then
        (db1, .dryRunReported pos_id)
      else
        let updatedRows :=
          (db1.positions.filter fun p =>
            decide (p.id = pos_id ∧ (p.status = "OPEN" ∨ p.status = "EXPIRED"))).length
        ({ db1 with
            trades := db1.trades ++ [newTradeFrom db1 pos_id action contracts_signed ev]
            nextTradeId := db1.nextTradeId + 1
            positions := db1.positions.map
              (updatePositionRow pos_id contracts_signed (creditOf action ev)
                (debitOf action ev) ev.commissions ev.fees trade_dt_str) },
          .applied pos_id contracts_signed updatedRows)

/-- One backfill batch: events applied strictly in order, collecting outcomes
in application order. -/
def apply_events : DB → List TradeEvent → Bool → DB × List ApplyOutcome
  | db, [], _ => (db, [])
  | db, ev :: rest, dry_run =>
      let r := apply_trade_event_to_db db ev dry_run
      let rr := apply_events r.1 rest dry_run
      (rr.1, r.2 :: rr.2)

-- --- Database well-formedness and observation helpers -------------------------

/-- Database well-formedness: rowids are below the autoincrement counter,
position rowids are unique, and trades reference existing positions. -/
def DBwf (db : DB) : Prop :=
  (∀ p ∈ db.positions, p.id < db.nextPositionId) ∧
  (db.positions.map Position.id).Nodup ∧
  (∀ t ∈ db.trades, ∃ p ∈ db.positions, t.position_id = p.id)

instance : DecidablePred DBwf := fun db => by
  unfold DBwf; infer_instance

/-- The position row with a given id, if any. -/
def findPos (db : DB) (k : Nat) : Option Position :=
  db.positions.find? fun p => p.id == k

/-- Total contracts recorded for a given position id (sum over the rows with
that id; in a well-formed database there is at most one). -/
def contractsOf (db : DB) (k : Nat) : Int :=
  ((db.positions.filter fun p => p.id == k).map Position.contracts).sum

/-- The signed delta an outcome contributed to position `k`. -/
def outcomeDelta (k : Nat) : ApplyOutcome → Int
  | .applied pid d _ => if pid = k then d else 0
  | _ => 0

/-- Sum of signed deltas applied to position `k` over a batch's outcomes. -/
def traceDelta (k : Nat) (outs : List ApplyOutcome) : Int :=
  (outs.map (outcomeDelta k)).sum

/-- An open/expired-status test on a position row. -/
def openOrExpired (p : Position) : Bool :=
  decide (p.status = "OPEN" ∨ p.status = "EXPIRED")

/-- Two position rows with the same identity key
(symbol, strategy, strike, expiration). -/
def sameIdentityKey (p q : Position) : Prop :=
  p.symbol = q.symbol ∧ p.strategy = q.strategy ∧ p.strike = q.strike ∧
    p.expiration = q.expiration

/-- The Position-Matcher invariant: among rows with status OPEN or EXPIRED,
identity keys are pairwise distinct. -/
def IdentityKeyUnique (db : DB) : Prop :=
  (db.positions.filter openOrExpired).Pairwise fun p q => ¬ sameIdentityKey p q

instance : DecidablePred IdentityKeyUnique := fun db => by
  unfold IdentityKeyUnique sameIdentityKey; infer_instance

-- --- Sample data for witnesses ------------------------------------------------

/-- An empty, well-formed database. -/
def emptyDB : DB := { positions := [], trades := [], nextPositionId := 1, nextTradeId := 1 }

/-- A concrete normalized event (Scenario A of the spec: SELL/OPENING put,
strike 50, quantity 2, price 1.50). -/
def sampleEvent : TradeEvent :=
  { account_number := "acct", symbol := "XYZ", option_type := "PUT", strike := 50,
    expiration := ⟨2025, 12, 19⟩, direction := "SELL", open_close := "OPENING",
    quantity := 2, price := 3/2, commissions := 0, fees := 0,
    trade_datetime := ⟨⟨2025, 12, 2⟩, 14, 31, 19, 0, some 0⟩,
    underlying_price := none, schwab_order_id := none, schwab_leg_id := none }

-- --- Analytics engine (portfolio_registry.analyze_position) -------------------

/-- The numeric outputs of `analyze_position` (before display rounding). -/
structure AnalyzeResult where
  pl : ℝ
  ret_pct : ℝ
  exposure : ℝ
  credit : ℝ
  ann_ret : ℝ
  iv_change_pct : ℝ
  roc : ℝ
  ann_roc : ℝ
  exposure_pct : ℝ

/-- The numeric core of `analyze_position` in `portfolio_registry.py`,
over real numbers (Python floats idealized as reals; the two-decimal
display rounding of the output dict is omitted). `age_days` is the
integer day difference `today − entry_date`. -/
noncomputable def analyze_position (entry_price mark contracts account_size
    entry_iv iv : ℝ) (age_days : ℤ) : AnalyzeResult :=
  let pl := (entry_price - mark) * contracts * 100
  let ret_pct := if entry_price ≠ 0 then pl / |entry_price * 100 * contracts| * 100 else 0
  let exposure := |entry_price * 100 * contracts|
  let credit := entry_price * 100 * contracts
  let ann_ret_raw :=
    if 0 < age_days then ((1 + ret_pct / 100) ^ ((365 : ℝ) / (age_days : ℝ)) - 1) * 100
    else 0
  let ann_ret := max (min ann_ret_raw 500) (-500)
  let iv_change_pct := if 0 < entry_iv then (iv / entry_iv - 1) * 100 else 0
  let roc := if exposure - credit ≠ 0 then pl / (exposure - credit) * 100 else 0
  let ann_roc_raw :=
    if 0 < age_days then ((1 + roc / 100) ^ ((365 : ℝ) / (age_days : ℝ)) - 1) * 100
    else 0
  let ann_roc := max (min ann_roc_raw 500) (-500)
  let exposure_pct := if 0 < account_size then exposure / account_size * 100 else 0
  { pl := pl, ret_pct := ret_pct, exposure := exposure, credit := credit,
    ann_ret := ann_ret, iv_change_pct := iv_change_pct, roc := roc,
    ann_roc := ann_roc, exposure_pct := exposure_pct }

-- --- Helper lemmas ------------------------------------------------------------

theorem minId?_eq_none {l : List Nat} : minId? l = none ↔ l = [] := by
  cases l with
  | nil => simp [minId?]
  | cons x xs =>
      simp only [minId?]
      cases h : minId? xs <;> simp

theorem minId?_mem {l : List Nat} {m : Nat} (h : minId? l = some m) : m ∈ l := by
  induction l generalizing m with
  | nil => simp [minId?] at h
  | cons x xs ih =>
      simp only [minId?] at h
      cases h2 : minId? xs with
      | none => rw [h2] at h; simp at h; simp [h]
      | some k =>
          rw [h2] at h
          simp only [Option.some.injEq] at h
          rcases Nat.le_total x k with hle | hle
          · have : Nat.min x k = x := Nat.min_eq_left hle
            rw [this] at h
            simp [h]
          · have : Nat.min x k = k := Nat.min_eq_right hle
            rw [this] at h
            exact List.mem_cons_of_mem _ (h ▸ ih h2)

theorem mem_matchIds {db : DB} {ev : TradeEvent} {i : Nat} :
    i ∈ matchIds db ev ↔ ∃ p ∈ db.positions, posMatches ev p = true ∧ p.id = i := by
  unfold matchIds
  simp only [List.mem_map, List.mem_filter]
  constructor
  · rintro ⟨p, ⟨hp, hm⟩, hid⟩
    exact ⟨p, hp, hm, hid⟩
  · rintro ⟨p, hp, hm, hid⟩
    exact ⟨p, ⟨hp, hm⟩, hid⟩

theorem posMatches_status {ev : TradeEvent} {p : Position}
    (h : posMatches ev p = true) : p.status = "OPEN" ∨ p.status = "EXPIRED" := by
  unfold posMatches at h
  exact (of_decide_eq_true h).2.2.2.2

theorem foc_found {db : DB} {ev : TradeEvent} {i : Nat}
    (h : minId? (matchIds db ev) = some i) :
    find_or_create_position_id db ev = (db, i) := by
  unfold find_or_create_position_id
  rw [h]

theorem foc_created {db : DB} {ev : TradeEvent}
    (h : minId? (matchIds db ev) = none) :
    find_or_create_position_id db ev =
      ({ db with
          positions := db.positions ++ [newPositionFrom db ev]
          nextPositionId := db.nextPositionId + 1 }, db.nextPositionId) := by
  unfold find_or_create_position_id
  rw [h]

theorem updatePositionRow_id (pid : Nat) (d : Int) (c de co fe : Rat) (dt : String)
    (p : Position) : (updatePositionRow pid d c de co fe dt p).id = p.id := by
  unfold updatePositionRow
  split <;> rfl

theorem updatePositionRow_posMatches (ev : TradeEvent) (pid : Nat) (d : Int)
    (c de co fe : Rat) (dt : String) (p : Position) :
    posMatches ev (updatePositionRow pid d c de co fe dt p) = posMatches ev p := by
  unfold updatePositionRow posMatches
  split <;> rfl

theorem filter_match_map_update (ev : TradeEvent) (pid : Nat) (d : Int)
    (c de co fe : Rat) (dt : String) (l : List Position) :
    ((l.map (updatePositionRow pid d c de co fe dt)).filter (posMatches ev)).map Position.id
      = (l.filter (posMatches ev)).map Position.id := by
  induction l with
  | nil => rfl
  | cons a t ih =>
      simp only [List.map_cons, List.filter_cons, updatePositionRow_posMatches]
      cases h : posMatches ev a <;>
        simp [h, ih, updatePositionRow_id]

theorem filter_id_map_update (k pid : Nat) (d : Int) (c de co fe : Rat) (dt : String)
    (l : List Position) :
    (l.map (updatePositionRow pid d c de co fe dt)).filter (fun q => q.id == k)
      = (l.filter (fun q => q.id == k)).map (updatePositionRow pid d c de co fe dt) := by
  induction l with
  | nil => rfl
  | cons a t ih =>
      simp only [List.map_cons, List.filter_cons, updatePositionRow_id]
      cases h : (a.id == k) <;> simp [h, ih]

theorem map_id_map_update (pid : Nat) (d : Int) (c de co fe : Rat) (dt : String)
    (l : List Position) :
    (l.map (updatePositionRow pid d c de co fe dt)).map Position.id = l.map Position.id := by
  induction l with
  | nil => rfl
  | cons a t ih => simp [updatePositionRow_id, ih]

theorem filter_id_singleton {l : List Position} (hnd : (l.map Position.id).Nodup)
    {p : Position} (hp : p ∈ l) :
    l.filter (fun q => q.id == p.id) = [p] := by
  induction l with
  | nil => cases hp
  | cons a t ih =>
      simp only [List.map_cons, List.nodup_cons] at hnd
      rcases List.mem_cons.mp hp with rfl | hpt
      · have hnil : t.filter (fun q => q.id == p.id) = [] := by
          rw [List.filter_eq_nil_iff]
          intro q hq
          simp only [beq_iff_eq]
          intro hid
          exact hnd.1 (hid ▸ List.mem_map_of_mem Position.id hq)
        simp [List.filter_cons, hnil]
      · have hne : (a.id == p.id) = false := by
          simp only [beq_eq_false_iff_ne, ne_eq]
          intro hid
          exact hnd.1 (hid ▸ List.mem_map_of_mem Position.id hpt)
        simp [List.filter_cons, hne, ih hnd.2 hpt]

theorem find?_of_filter_singleton {l : List Position} {pred : Position → Bool}
    {p : Position} (h : l.filter pred = [p]) : l.find? pred = some p := by
  induction l with
  | nil => simp at h
  | cons a t ih =>
      rw [List.filter_cons] at h
      by_cases ha : pred a = true
      · rw [if_pos ha] at h
        simp only [List.cons.injEq] at h
        rw [List.find?_cons_of_pos _ ha, h.1]
      · rw [if_neg ha] at h
        rw [List.find?_cons_of_neg _ (by simpa using ha)]
        exact ih h

theorem foc_trades (db : DB) (ev : TradeEvent) :
    (find_or_create_position_id db ev).1.trades = db.trades := by
  cases h : minId? (matchIds db ev) with
  | some i => rw [foc_found h]
  | none => rw [foc_created h]

theorem foc_nextTradeId (db : DB) (ev : TradeEvent) :
    (find_or_create_position_id db ev).1.nextTradeId = db.nextTradeId := by
  cases h : minId? (matchIds db ev) with
  | some i => rw [foc_found h]
  | none => rw [foc_created h]

theorem foc_selected (db : DB) (ev : TradeEvent) :
    ∃ p ∈ (find_or_create_position_id db ev).1.positions,
      p.id = (find_or_create_position_id db ev).2 ∧
      (p.status = "OPEN" ∨ p.status = "EXPIRED") := by
  cases h : minId? (matchIds db ev) with
  | some i =>
      rw [foc_found h]
      obtain ⟨p, hp, hm, hid⟩ := mem_matchIds.mp (minId?_mem h)
      exact ⟨p, hp, hid, posMatches_status hm⟩
  | none =>
      rw [foc_created h]
      exact ⟨newPositionFrom db ev,
        List.mem_append_right _ (List.mem_singleton_self _), rfl, Or.inl rfl⟩

theorem foc_wf {db : DB} (ev : TradeEvent) (h : DBwf db) :
    DBwf (find_or_create_position_id db ev).1 := by
  cases hm : minId? (matchIds db ev) with
  | some i => rw [foc_found hm]; exact h
  | none =>
      rw [foc_created hm]
      obtain ⟨h1, h2, h3⟩ := h
      refine ⟨?_, ?_, ?_⟩
      · intro p hp
        dsimp at hp ⊢
        rcases List.mem_append.mp hp with hp | hp
        · exact Nat.lt_succ_of_lt (h1 p hp)
        · rw [List.mem_singleton.mp hp]
          exact Nat.lt_succ_self _
      · dsimp
        rw [List.map_append]
        refine List.Nodup.append h2 (List.nodup_singleton _) ?_
        intro a ha hb
        simp only [List.map_cons, List.map_nil, List.mem_singleton] at hb
        obtain ⟨p, hp, rfl⟩ := List.mem_map.mp ha
        have hlt := h1 p hp
        rw [hb] at hlt
        exact absurd hlt (by simp [newPositionFrom])
      · intro t ht
        dsimp at ht ⊢
        obtain ⟨p, hp, hid⟩ := h3 t ht
        exact ⟨p, List.mem_append_left _ hp, hid⟩

theorem contractsOf_foc {db : DB} (ev : TradeEvent) (k : Nat) (h : DBwf db) :
    contractsOf (find_or_create_position_id db ev).1 k = contractsOf db k := by
  cases hm : minId? (matchIds db ev) with
  | some i => rw [foc_found hm]
  | none =>
      rw [foc_created hm]
      unfold contractsOf
      dsimp
      rw [List.filter_append, List.map_append, List.sum_append]
      by_cases hk : db.nextPositionId = k
      · have hfil : db.positions.filter (fun q => q.id == k) = [] := by
          rw [List.filter_eq_nil_iff]
          intro q hq
          have := h.1 q hq
          simp only [beq_iff_eq]
          omega
        simp [hfil, newPositionFrom, hk]
      · have hne : ((newPositionFrom db ev).id == k) = false := by
          simp [newPositionFrom, hk]
        simp [hne]

theorem updatePositionRow_of_hit {pid : Nat} {d : Int} {c de co fe : Rat} {dt : String}
    {p : Position} (hid : p.id = pid)
    (hst : p.status = "OPEN" ∨ p.status = "EXPIRED") :
    updatePositionRow pid d c de co fe dt p =
      { p with
          contracts := p.contracts + d
          total_credit := p.total_credit + c
          total_debit := p.total_debit + de
          commissions := p.commissions + co
          fees := p.fees + fe
          last_updated := dt } := by
  unfold updatePositionRow
  rw [if_pos ⟨hid, hst⟩]

theorem updatePositionRow_of_miss {pid : Nat} {d : Int} {c de co fe : Rat} {dt : String}
    {p : Position} (hne : p.id ≠ pid) :
    updatePositionRow pid d c de co fe dt p = p := by
  unfold updatePositionRow
  rw [if_neg]
  rintro ⟨h1, -⟩
  exact hne h1

theorem updatePositionRow_of_closed {pid : Nat} {d : Int} {c de co fe : Rat} {dt : String}
    {p : Position} (hst : p.status = "CLOSED" ∨ p.status = "ROLLED") :
    updatePositionRow pid d c de co fe dt p = p := by
  unfold updatePositionRow
  rw [if_neg]
  rintro ⟨-, h2 | h2⟩ <;> rcases hst with h3 | h3 <;> rw [h3] at h2 <;> exact absurd h2 (by decide)

theorem apply_wf {db : DB} (ev : TradeEvent) (dry : Bool) (h : DBwf db) :
    DBwf (apply_trade_event_to_db db ev dry).1 := by
  unfold apply_trade_event_to_db
  cases hd : derive_action_from_event ev with
  | none => exact h
  | some act =>
      dsimp only
      have hwf1 := foc_wf ev h
      split
      · exact hwf1
      · split
        · exact hwf1
        · obtain ⟨p0, hp0, hp0id, hp0st⟩ := foc_selected db ev
          refine ⟨?_, ?_, ?_⟩
          · intro p hp
            dsimp at hp ⊢
            obtain ⟨q, hq, rfl⟩ := List.mem_map.mp hp
            rw [updatePositionRow_id]
            exact hwf1.1 q hq
          · dsimp
            rw [map_id_map_update]
            exact hwf1.2.1
          · intro t ht
            dsimp at ht ⊢
            rcases List.mem_append.mp ht with ht | ht
            · obtain ⟨q, hq, hid⟩ := hwf1.2.2 t ht
              exact ⟨updatePositionRow _ _ _ _ _ _ _ q,
                List.mem_map_of_mem _ hq, by rw [updatePositionRow_id]; exact hid⟩
            · rw [List.mem_singleton.mp ht]
              refine ⟨updatePositionRow _ _ _ _ _ _ _ p0,
                List.mem_map_of_mem _ hp0, ?_⟩
              dsimp
              rw [updatePositionRow_id]
              exact hp0id.symm

theorem sum_contracts_map_update {l : List Position} (hnd : (l.map Position.id).Nodup)
    {pid : Nat} {d : Int} {c de co fe : Rat} {dt : String}
    {p0 : Position} (hp0 : p0 ∈ l) (hp0id : p0.id = pid)
    (hp0st : p0.status = "OPEN" ∨ p0.status = "EXPIRED") (k : Nat) :
    (((l.map (updatePositionRow pid d c de co fe dt)).filter
        (fun q => q.id == k)).map Position.contracts).sum
      = ((l.filter (fun q => q.id == k)).map Position.contracts).sum
        + (if pid = k then d else 0) := by
  rw [filter_id_map_update]
  by_cases hk : pid = k
  · subst hk
    have hfil : l.filter (fun q => q.id == pid) = [p0] := by
      have hx := filter_id_singleton hnd hp0
      rw [hp0id] at hx
      exact hx
    rw [hfil, if_pos rfl]
    simp [updatePositionRow_of_hit hp0id hp0st]
  · rw [if_neg hk]
    have hcong : ∀ q ∈ l.filter (fun q => q.id == k),
        updatePositionRow pid d c de co fe dt q = q := by
      intro q hq
      have hqk : q.id = k := by simpa using (List.mem_filter.mp hq).2
      apply updatePositionRow_of_miss
      rw [hqk]
      exact fun hh => hk hh.symm
    have hmapself : ∀ (m : List Position),
        (∀ q ∈ m, updatePositionRow pid d c de co fe dt q = q) →
        m.map (updatePositionRow pid d c de co fe dt) = m := by
      intro m
      induction m with
      | nil => intro _; rfl
      | cons a t ih =>
          intro hm
          simp only [List.map_cons]
          rw [hm a (List.mem_cons_self a t),
            ih (fun q hq => hm q (List.mem_cons_of_mem _ hq))]
    rw [hmapself _ hcong]
    omega

theorem contractsOf_apply_step {db : DB} (ev : TradeEvent) (dry : Bool) (k : Nat)
    (h : DBwf db) :
    contractsOf (apply_trade_event_to_db db ev dry).1 k =
      contractsOf db k + outcomeDelta k (apply_trade_event_to_db db ev dry).2 := by
  unfold apply_trade_event_to_db
  cases hd : derive_action_from_event ev with
  | none => simp [outcomeDelta]
  | some act =>
      dsimp only
      split
      · simp [outcomeDelta, contractsOf_foc ev k h]
      · split
        · simp [outcomeDelta, contractsOf_foc ev k h]
        · have hwf1 := foc_wf ev h
          obtain ⟨p0, hp0, hp0id, hp0st⟩ := foc_selected db ev
          dsimp [outcomeDelta]
          unfold contractsOf
          dsimp
          rw [sum_contracts_map_update hwf1.2.1 hp0 hp0id hp0st k]
          have h2 := contractsOf_foc ev k h
          unfold contractsOf at h2
          omega

theorem posMatches_newPosition (db : DB) (ev : TradeEvent) :
    posMatches ev (newPositionFrom db ev) = true := by
  simp [posMatches, newPositionFrom]

theorem minId?_after_update {db db' : DB} {ev : TradeEvent} {pid : Nat} {d : Int}
    {c de co fe : Rat} {dt : String}
    (hpos : db'.positions = (find_or_create_position_id db ev).1.positions.map
      (updatePositionRow pid d c de co fe dt)) :
    minId? (matchIds db' ev) = some (find_or_create_position_id db ev).2 := by
  unfold matchIds
  rw [hpos, filter_match_map_update]
  cases hm : minId? (matchIds db ev) with
  | some i =>
      rw [foc_found hm]
      exact hm
  | none =>
      rw [foc_created hm]
      dsimp
      rw [List.filter_append]
      have hnil : db.positions.filter (posMatches ev) = [] := by
        have h0 := minId?_eq_none.mp hm
        unfold matchIds at h0
        exact List.map_eq_nil_iff.mp h0
      rw [hnil]
      have hfil : List.filter (posMatches ev) [newPositionFrom db ev]
          = [newPositionFrom db ev] := by
        rw [List.filter_cons, if_pos (posMatches_newPosition db ev)]
        rfl
      rw [List.nil_append, hfil]
      simp [minId?, newPositionFrom]

theorem apply_applied_shape {db : DB} {ev : TradeEvent} {act : String}
    {db1 : DB} {pid : Nat} {d : Int} {r : Nat}
    (hact : derive_action_from_event ev = some act)
    (happ : apply_trade_event_to_db db ev false = (db1, .applied pid d r)) :
    pid = (find_or_create_position_id db ev).2 ∧
    d = signed_contracts act ev.quantity ∧
    tradeKeyExists (find_or_create_position_id db ev).1 pid
      (strftimeZ ev.trade_datetime) act d ev.price = false ∧
    r = ((find_or_create_position_id db ev).1.positions.filter fun p =>
      decide (p.id = pid ∧ (p.status = "OPEN" ∨ p.status = "EXPIRED"))).length ∧
    db1 = { (find_or_create_position_id db ev).1 with
        trades := (find_or_create_position_id db ev).1.trades ++
          [newTradeFrom (find_or_create_position_id db ev).1 pid act d ev]
        nextTradeId := (find_or_create_position_id db ev).1.nextTradeId + 1
        positions := (find_or_create_position_id db ev).1.positions.map
          (updatePositionRow pid d (creditOf act ev) (debitOf act ev)
            ev.commissions ev.fees (strftimeZ ev.trade_datetime)) } := by
  unfold apply_trade_event_to_db at happ
  rw [hact] at happ
  dsimp only at happ
  rw [if_neg (by decide : ¬ (false = true))] at happ
  split at happ
  · exact absurd (congrArg Prod.snd happ) (by simp)
  · rename_i hdup
    rw [Prod.mk.injEq] at happ
    obtain ⟨hdb1, hout⟩ := happ
    simp only [ApplyOutcome.applied.injEq] at hout
    obtain ⟨hpid, hd, hr⟩ := hout
    subst hpid
    subst hd
    subst hr
    exact ⟨rfl, rfl, by simpa using hdup, rfl, hdb1.symm⟩

-- --- Claim theorems -----------------------------------------------------------

/-- C4: action resolution is total and deterministic on
{BUY,SELL} × {OPENING,CLOSING,UNKNOWN}: SELL+OPENING ↦ SELL_OPEN with
delta −quantity, BUY+OPENING ↦ BUY_OPEN with +quantity, BUY+CLOSING ↦
BUY_CLOSE with +quantity, SELL+CLOSING ↦ SELL_CLOSE with −quantity,
SELL+UNKNOWN ↦ SELL_OPEN with −quantity, BUY+UNKNOWN ↦ BUY_CLOSE with
+quantity; any direction other than BUY or SELL resolves to `none`. -/
theorem action_resolution_table (ev : TradeEvent) :
    (asciiUpper ev.direction = "SELL" ∧ asciiUpper ev.open_close = "OPENING" →
      derive_action_from_event ev = some "SELL_OPEN" ∧
      signed_contracts "SELL_OPEN" ev.quantity = -ev.quantity) ∧
    (asciiUpper ev.direction = "BUY" ∧ asciiUpper ev.open_close = "OPENING" →
      derive_action_from_event ev = some "BUY_OPEN" ∧
      signed_contracts "BUY_OPEN" ev.quantity = ev.quantity) ∧
    (asciiUpper ev.direction = "BUY" ∧ asciiUpper ev.open_close = "CLOSING" →
      derive_action_from_event ev = some "BUY_CLOSE" ∧
      signed_contracts "BUY_CLOSE" ev.quantity = ev.quantity) ∧
    (asciiUpper ev.direction = "SELL" ∧ asciiUpper ev.open_close = "CLOSING" →
      derive_action_from_event ev = some "SELL_CLOSE" ∧
      signed_contracts "SELL_CLOSE" ev.quantity = -ev.quantity) ∧
    (asciiUpper ev.direction = "SELL" ∧ asciiUpper ev.open_close = "UNKNOWN" →
      derive_action_from_event ev = some "SELL_OPEN" ∧
      signed_contracts "SELL_OPEN" ev.quantity = -ev.quantity) ∧
    (asciiUpper ev.direction = "BUY" ∧ asciiUpper ev.open_close = "UNKNOWN" →
      derive_action_from_event ev = some "BUY_CLOSE" ∧
      signed_contracts "BUY_CLOSE" ev.quantity = ev.quantity) ∧
    (asciiUpper ev.direction ≠ "BUY" ∧ asciiUpper ev.direction ≠ "SELL" →
      derive_action_from_event ev = none) := by
  refine ⟨?_, ?_, ?_, ?_, ?_, ?_, ?_⟩
  · rintro ⟨h1, h2⟩
    refine ⟨?_, rfl⟩
    unfold derive_action_from_event
    rw [h1, h2]
    decide
  · rintro ⟨h1, h2⟩
    refine ⟨?_, rfl⟩
    unfold derive_action_from_event
    rw [h1, h2]
    decide
  · rintro ⟨h1, h2⟩
    refine ⟨?_, rfl⟩
    unfold derive_action_from_event
    rw [h1, h2]
    decide
  · rintro ⟨h1, h2⟩
    refine ⟨?_, rfl⟩
    unfold derive_action_from_event
    rw [h1, h2]
    decide
  · rintro ⟨h1, h2⟩
    refine ⟨?_, rfl⟩
    unfold derive_action_from_event
    rw [h1, h2]
    decide
  · rintro ⟨h1, h2⟩
    refine ⟨?_, rfl⟩
    unfold derive_action_from_event
    rw [h1, h2]
    decide
  · rintro ⟨h1, h2⟩
    unfold derive_action_from_event
    by_cases hoc : asciiUpper ev.open_close = "OPENING" <;>
      by_cases hoc2 : asciiUpper ev.open_close = "CLOSING" <;>
        simp [hoc, hoc2, h1, h2]

/-- C4 witness: the table evaluated at a concrete SELL/OPENING event. -/
theorem action_resolution_table_witness :
    derive_action_from_event sampleEvent = some "SELL_OPEN" ∧
    signed_contracts "SELL_OPEN" sampleEvent.quantity = -sampleEvent.quantity :=
  (action_resolution_table sampleEvent).1 (by with_unfolding_all decide)

/-- C1 counterexample: with `dry_run = true` on an empty database,
`apply_trade_event_to_db` still inserts (and commits) a new position row
through `find_or_create_position_id`, so the positions table differs
from its prior state. -/
theorem dry_run_creates_position_cex :
    (apply_trade_event_to_db emptyDB sampleEvent true).1.positions
      ≠ emptyDB.positions := by
  with_unfolding_all decide

/-- C1 (amended): with `dry_run = true` the call inserts no trade row,
applies no position update (the report outcome is never `applied`), and
the trades table is unchanged; the only possible write is the insertion
of one fresh position row by `find_or_create_position_id` when no
OPEN/EXPIRED row matches the event's key. -/
theorem dry_run_no_trade_writes (db : DB) (ev : TradeEvent) :
    (apply_trade_event_to_db db ev true).1.trades = db.trades ∧
    ((apply_trade_event_to_db db ev true).1.positions = db.positions ∨
      (apply_trade_event_to_db db ev true).1.positions
        = db.positions ++ [newPositionFrom db ev]) ∧
    ((apply_trade_event_to_db db ev true).2).isApplied = false := by
  unfold apply_trade_event_to_db
  cases hd : derive_action_from_event ev with
  | none => exact ⟨rfl, Or.inl rfl, rfl⟩
  | some act =>
      dsimp only
      cases hm : minId? (matchIds db ev) with
      | some i =>
          rw [foc_found hm]
          dsimp only
          split
          · exact ⟨rfl, Or.inl rfl, rfl⟩
          · rw [if_pos rfl]
            exact ⟨rfl, Or.inl rfl, rfl⟩
      | none =>
          rw [foc_created hm]
          dsimp only
          split
          · exact ⟨rfl, Or.inr rfl, rfl⟩
          · rw [if_pos rfl]
            exact ⟨rfl, Or.inr rfl, rfl⟩

/-- C6: once a position row's status is CLOSED or ROLLED, no
`apply_trade_event_to_db` call changes any of its fields (the row is
preserved verbatim at its index), and a reached position update always
affects at least one row — the selected OPEN/EXPIRED row — so an update
affecting zero rows cannot occur in this single-writer execution and the
claimed zero-rows ⇒ stale-warning implication holds vacuously. -/
theorem closed_positions_immutable (db : DB) (ev : TradeEvent) (dry : Bool) :
    (∀ (i : Nat) (p : Position), db.positions[i]? = some p →
      (p.status = "CLOSED" ∨ p.status = "ROLLED") →
      (apply_trade_event_to_db db ev dry).1.positions[i]? = some p) ∧
    (∀ (pid : Nat) (d : Int) (r : Nat),
      (apply_trade_event_to_db db ev dry).2 = .applied pid d r → 0 < r) := by
  have hmap : ∀ (l : List Position) (i : Nat) (p : Position)
      (pid : Nat) (d : Int) (c de co fe : Rat) (dt : String),
      l[i]? = some p → (p.status = "CLOSED" ∨ p.status = "ROLLED") →
      (l.map (updatePositionRow pid d c de co fe dt))[i]? = some p := by
    intro l i p pid d c de co fe dt hi hst
    rw [List.getElem?_map, hi]
    simp [updatePositionRow_of_closed hst]
  have happx : ∀ (l : List Position) (x : Position) (i : Nat) (p : Position),
      l[i]? = some p → (l ++ [x])[i]? = some p := by
    intro l x i p hi
    rw [List.getElem?_append, if_pos (List.getElem?_eq_some.mp hi).1]
    exact hi
  unfold apply_trade_event_to_db
  cases hd : derive_action_from_event ev with
  | none => exact ⟨fun i p hi _ => hi, by intro pid d r h; cases h⟩
  | some act =>
      dsimp only
      cases hm : minId? (matchIds db ev) with
      | some i0 =>
          rw [foc_found hm]
          dsimp only
          split
          · exact ⟨fun i p hi _ => hi, by intro pid d r h; cases h⟩
          · split
            · exact ⟨fun i p hi _ => hi, by intro pid d r h; cases h⟩
            · constructor
              · intro i p hi hst
                exact hmap _ _ _ _ _ _ _ _ _ _ hi hst
              · intro pid d r h
                simp only [ApplyOutcome.applied.injEq] at h
                obtain ⟨p0, hp0, hm0, hid0⟩ := mem_matchIds.mp (minId?_mem hm)
                have hmem : p0 ∈ db.positions.filter fun p =>
                    decide (p.id = i0 ∧ (p.status = "OPEN" ∨ p.status = "EXPIRED")) :=
                  List.mem_filter.mpr
                    ⟨hp0, decide_eq_true ⟨hid0, posMatches_status hm0⟩⟩
                have := List.length_pos.mpr (List.ne_nil_of_mem hmem)
                omega
      | none =>
          rw [foc_created hm]
          dsimp only
          split
          · refine ⟨fun i p hi _ => happx _ _ _ _ hi, by intro pid d r h; cases h⟩
          · split
            · refine ⟨fun i p hi _ => happx _ _ _ _ hi, by intro pid d r h; cases h⟩
            · constructor
              · intro i p hi hst
                exact hmap _ _ _ _ _ _ _ _ _ _ (happx _ _ _ _ hi) hst
              · intro pid d r h
                simp only [ApplyOutcome.applied.injEq] at h
                have hmem : newPositionFrom db ev ∈
                    (db.positions ++ [newPositionFrom db ev]).filter fun p =>
                      decide (p.id = db.nextPositionId ∧
                        (p.status = "OPEN" ∨ p.status = "EXPIRED")) :=
                  List.mem_filter.mpr
                    ⟨List.mem_append_right _ (List.mem_singleton_self _),
                      decide_eq_true ⟨rfl, Or.inl rfl⟩⟩
                have := List.length_pos.mpr (List.ne_nil_of_mem hmem)
                omega

/-- C10: when the event's natural key (resolved position, timestamp, action,
signed contracts, price) already matches an existing trades row, the call
returns `duplicate` before the dry-run branch regardless of the `dry_run`
flag: the database is returned unchanged, with no trade insert, no position
update and no would-be-insert report. -/
theorem duplicate_short_circuits (db : DB) (ev : TradeEvent) (act : String)
    (hwf : DBwf db)
    (hact : derive_action_from_event ev = some act)
    (hdup : tradeKeyExists (find_or_create_position_id db ev).1
        (find_or_create_position_id db ev).2 (strftimeZ ev.trade_datetime) act
        (signed_contracts act ev.quantity) ev.price = true) :
    ∀ dry : Bool, apply_trade_event_to_db db ev dry = (db, .duplicate) := by
  intro dry
  unfold apply_trade_event_to_db
  rw [hact]
  dsimp only
  cases hm : minId? (matchIds db ev) with
  | some i =>
      rw [foc_found hm] at hdup ⊢
      dsimp only at hdup ⊢
      rw [if_pos hdup]
  | none =>
      exfalso
      rw [foc_created hm] at hdup
      dsimp only at hdup
      unfold tradeKeyExists at hdup
      obtain ⟨t, ht, hkey⟩ := List.any_eq_true.mp hdup
      have hid := (of_decide_eq_true hkey).1
      obtain ⟨p, hp, hpid⟩ := hwf.2.2 t ht
      have := hwf.1 p hp
      omega

/-- C2: after an event is actually applied (`dry_run = false`), the database
holds exactly one trades row with the event's natural key, and re-applying
the very same event detects that key and performs no writes at all: the
second call returns the database unchanged with the `duplicate` outcome. -/
theorem reapply_same_event_is_noop (db : DB) (ev : TradeEvent) (act : String)
    (db1 : DB) (pid : Nat) (d : Int) (r : Nat)
    (hact : derive_action_from_event ev = some act)
    (happ : apply_trade_event_to_db db ev false = (db1, .applied pid d r)) :
    apply_trade_event_to_db db1 ev false = (db1, .duplicate) ∧
    (db1.trades.filter fun t =>
      decide (t.position_id = pid ∧
        t.trade_datetime = strftimeZ ev.trade_datetime ∧ t.action = act ∧
        t.contracts = d ∧ t.price = ev.price)).length = 1 := by
  obtain ⟨hpid, hd, hdup, hr, hdb1⟩ := apply_applied_shape hact happ
  subst hpid
  subst hd
  subst hdb1
  constructor
  · unfold apply_trade_event_to_db
    rw [hact]
    dsimp only
    have hmi := @minId?_after_update db
      { (find_or_create_position_id db ev).1 with
        trades := (find_or_create_position_id db ev).1.trades ++
          [newTradeFrom (find_or_create_position_id db ev).1
            (find_or_create_position_id db ev).2 act
            (signed_contracts act ev.quantity) ev]
        nextTradeId := (find_or_create_position_id db ev).1.nextTradeId + 1
        positions := (find_or_create_position_id db ev).1.positions.map
          (updatePositionRow (find_or_create_position_id db ev).2
            (signed_contracts act ev.quantity) (creditOf act ev) (debitOf act ev)
            ev.commissions ev.fees (strftimeZ ev.trade_datetime)) }
      ev _ _ _ _ _ _ _ rfl
    rw [foc_found hmi]
    dsimp only
    rw [if_pos (by simp [tradeKeyExists, newTradeFrom])]
  · dsimp only
    rw [List.filter_append]
    have h1 : (find_or_create_position_id db ev).1.trades.filter (fun t =>
        decide (t.position_id = (find_or_create_position_id db ev).2 ∧
          t.trade_datetime = strftimeZ ev.trade_datetime ∧ t.action = act ∧
          t.contracts = signed_contracts act ev.quantity ∧
          t.price = ev.price)) = [] := by
      rw [List.filter_eq_nil_iff]
      unfold tradeKeyExists at hdup
      intro t ht
      exact List.any_eq_false.mp hdup t ht
    rw [h1]
    simp [newTradeFrom]

/-- C5: a non-duplicate event applied with `dry_run = false` to an
OPEN/EXPIRED position appends exactly the trade row, adds
|quantity × price × 100| to total_credit when the side is SELL (debit
unchanged) and to total_debit when the side is BUY (credit unchanged),
accumulates commissions and fees, sets last_updated to the event
timestamp, and adds the signed delta to contracts; over any batch, the
contracts recorded for any position id equal the initial value plus the
sum of the applied deltas for that id, in application order. -/
theorem applied_updates_and_conservation :
    (∀ (db : DB) (ev : TradeEvent) (act : String) (db' : DB) (pid : Nat)
        (d : Int) (r : Nat), DBwf db →
      derive_action_from_event ev = some act →
      apply_trade_event_to_db db ev false = (db', .applied pid d r) →
      d = signed_contracts act ev.quantity ∧
      db'.trades = (find_or_create_position_id db ev).1.trades ++
        [newTradeFrom (find_or_create_position_id db ev).1 pid act d ev] ∧
      ∃ p q, findPos (find_or_create_position_id db ev).1 pid = some p ∧
        (p.status = "OPEN" ∨ p.status = "EXPIRED") ∧
        findPos db' pid = some q ∧
        q.contracts = p.contracts + d ∧
        q.total_credit = p.total_credit +
          (if (splitSide act).1 = "SELL" then |(ev.quantity : Rat) * ev.price * 100| else 0) ∧
        q.total_debit = p.total_debit +
          (if (splitSide act).1 = "SELL" then 0 else |(ev.quantity : Rat) * ev.price * 100|) ∧
        q.commissions = p.commissions + ev.commissions ∧
        q.fees = p.fees + ev.fees ∧
        q.last_updated = strftimeZ ev.trade_datetime) ∧
    (∀ (db : DB) (evs : List TradeEvent) (k : Nat), DBwf db →
      contractsOf (apply_events db evs false).1 k =
        contractsOf db k + traceDelta k (apply_events db evs false).2) := by
  constructor
  · intro db ev act db' pid d r hwf hact happ
    obtain ⟨hpid, hd, hdup, hr, hdb1⟩ := apply_applied_shape hact happ
    subst hpid
    subst hd
    subst hdb1
    have hwf1 := foc_wf ev hwf
    obtain ⟨p0, hp0, hp0id, hp0st⟩ := foc_selected db ev
    have hfil : (find_or_create_position_id db ev).1.positions.filter
        (fun q => q.id == (find_or_create_position_id db ev).2) = [p0] := by
      have hx := filter_id_singleton hwf1.2.1 hp0
      rw [hp0id] at hx
      exact hx
    refine ⟨rfl, rfl,
      p0,
      updatePositionRow (find_or_create_position_id db ev).2
        (signed_contracts act ev.quantity) (creditOf act ev) (debitOf act ev)
        ev.commissions ev.fees (strftimeZ ev.trade_datetime) p0,
      find?_of_filter_singleton hfil, hp0st, ?_, ?_⟩
    · unfold findPos
      dsimp only
      apply find?_of_filter_singleton
      rw [filter_id_map_update, hfil]
      rfl
    · rw [updatePositionRow_of_hit hp0id hp0st]
      refine ⟨rfl, ?_, ?_, rfl, rfl, rfl⟩
      · simp [creditOf, grossOf]
      · simp [debitOf, grossOf]
  · intro db evs k hwf
    induction evs generalizing db with
    | nil => simp [apply_events, traceDelta]
    | cons e rest ih =>
        have hstep := contractsOf_apply_step e false k hwf
        have hwf' := apply_wf e false hwf
        have hih := ih (apply_trade_event_to_db db e false).1 hwf'
        simp only [apply_events] at hih ⊢
        simp only [traceDelta, List.map_cons, List.sum_cons] at hih ⊢
        omega

theorem updatePositionRow_openOrExpired (pid : Nat) (d : Int) (c de co fe : Rat)
    (dt : String) (p : Position) :
    openOrExpired (updatePositionRow pid d c de co fe dt p) = openOrExpired p := by
  unfold updatePositionRow openOrExpired
  split <;> rfl

theorem sameKey_update_iff {pid : Nat} {d : Int} {c de co fe : Rat} {dt : String}
    (p q : Position) :
    sameIdentityKey (updatePositionRow pid d c de co fe dt p)
      (updatePositionRow pid d c de co fe dt q) ↔ sameIdentityKey p q := by
  unfold updatePositionRow sameIdentityKey
  split <;> split <;> exact Iff.rfl

theorem filter_open_map_update (pid : Nat) (d : Int) (c de co fe : Rat) (dt : String)
    (l : List Position) :
    (l.map (updatePositionRow pid d c de co fe dt)).filter openOrExpired
      = (l.filter openOrExpired).map (updatePositionRow pid d c de co fe dt) := by
  induction l with
  | nil => rfl
  | cons a t ih =>
      simp only [List.map_cons, List.filter_cons, updatePositionRow_openOrExpired]
      cases h : openOrExpired a <;> simp [h, ih]

theorem identityKeyUnique_step {db : DB} (ev : TradeEvent) (dry : Bool)
    (h : IdentityKeyUnique db) :
    IdentityKeyUnique (apply_trade_event_to_db db ev dry).1 := by
  have hfoc : IdentityKeyUnique (find_or_create_position_id db ev).1 := by
    cases hm : minId? (matchIds db ev) with
    | some i => rw [foc_found hm]; exact h
    | none =>
        rw [foc_created hm]
        unfold IdentityKeyUnique at h ⊢
        dsimp
        rw [List.filter_append]
        have hnew : List.filter openOrExpired [newPositionFrom db ev]
            = [newPositionFrom db ev] := by
          simp [openOrExpired, newPositionFrom]
        rw [hnew, List.pairwise_append]
        refine ⟨h, List.pairwise_singleton _ _, ?_⟩
        intro x hx y hy
        simp only [List.mem_singleton] at hy
        subst hy
        intro hkey
        have hxmem := List.mem_filter.mp hx
        have hmatch : posMatches ev x = true := by
          unfold posMatches
          apply decide_eq_true
          simp only [sameIdentityKey, newPositionFrom] at hkey
          obtain ⟨h1, h2, h3, h4⟩ := hkey
          have hopen := of_decide_eq_true hxmem.2
          exact ⟨h1, h2, h3, h4, hopen⟩
        have h0 : matchIds db ev = [] := minId?_eq_none.mp hm
        unfold matchIds at h0
        have hfil := List.map_eq_nil_iff.mp h0
        exact absurd hmatch (by simpa using List.filter_eq_nil_iff.mp hfil x hxmem.1)
  unfold apply_trade_event_to_db
  cases hd : derive_action_from_event ev with
  | none => exact h
  | some act =>
      dsimp only
      split
      · exact hfoc
      · split
        · exact hfoc
        · unfold IdentityKeyUnique at hfoc ⊢
          dsimp
          rw [filter_open_map_update, List.pairwise_map]
          refine List.Pairwise.imp ?_ hfoc
          intro a b hab hk
          exact hab ((sameKey_update_iff a b).mp hk)

/-- C3: over any batch of applied events, the Position-Matcher invariant is
preserved — each identity key (symbol, strategy, strike, expiration) labels
at most one OPEN/EXPIRED row — and `find_or_create_position_id` returns an
existing OPEN/EXPIRED row for the key when one exists, inserting a fresh row
only when none exists. -/
theorem identity_key_unique_invariant :
    (∀ (db : DB) (evs : List TradeEvent) (dry : Bool), IdentityKeyUnique db →
      IdentityKeyUnique (apply_events db evs dry).1) ∧
    (∀ (db : DB) (ev : TradeEvent),
      (∃ p ∈ db.positions, posMatches ev p = true) →
      (find_or_create_position_id db ev).1 = db ∧
      ∃ p ∈ db.positions, posMatches ev p = true ∧
        p.id = (find_or_create_position_id db ev).2) ∧
    (∀ (db : DB) (ev : TradeEvent),
      (∀ p ∈ db.positions, posMatches ev p = false) →
      (find_or_create_position_id db ev).1.positions
        = db.positions ++ [newPositionFrom db ev] ∧
      (find_or_create_position_id db ev).2 = db.nextPositionId) := by
  refine ⟨?_, ?_, ?_⟩
  · intro db evs dry h
    induction evs generalizing db with
    | nil => exact h
    | cons e rest ih =>
        simp only [apply_events]
        exact ih _ (identityKeyUnique_step e dry h)
  · rintro db ev ⟨p, hp, hm⟩
    cases hmi : minId? (matchIds db ev) with
    | none =>
        exfalso
        have h0 := minId?_eq_none.mp hmi
        unfold matchIds at h0
        have hfil := List.map_eq_nil_iff.mp h0
        exact absurd hm (by simpa using List.filter_eq_nil_iff.mp hfil p hp)
    | some i =>
        rw [foc_found hmi]
        exact ⟨rfl, mem_matchIds.mp (minId?_mem hmi)⟩
  · intro db ev hall
    have h0 : matchIds db ev = [] := by
      unfold matchIds
      rw [List.filter_eq_nil_iff.mpr (fun p hp => by simp [hall p hp])]
      rfl
    rw [foc_created (minId?_eq_none.mpr h0)]
    exact ⟨rfl, rfl⟩

/-- C8: for every analyzed position with `age_days > 0` the annualized
return equals ((1 + return_pct/100)^(365/age_days) − 1) × 100 clamped to
[−500, 500]; the annualized return and the annualized return-on-capital
always lie in [−500, 500]; and both are 0 (after clamping) when
`age_days` is not positive. -/
theorem annualized_return_clamped (entry_price mark contracts account_size
    entry_iv iv : ℝ) (age_days : ℤ) :
    (0 < age_days →
      (analyze_position entry_price mark contracts account_size entry_iv iv
          age_days).ann_ret =
        max (min (((1 + (analyze_position entry_price mark contracts account_size
            entry_iv iv age_days).ret_pct / 100) ^ ((365 : ℝ) / (age_days : ℝ)) - 1)
          * 100) 500) (-500)) ∧
    -500 ≤ (analyze_position entry_price mark contracts account_size entry_iv iv
      age_days).ann_ret ∧
    (analyze_position entry_price mark contracts account_size entry_iv iv
      age_days).ann_ret ≤ 500 ∧
    -500 ≤ (analyze_position entry_price mark contracts account_size entry_iv iv
      age_days).ann_roc ∧
    (analyze_position entry_price mark contracts account_size entry_iv iv
      age_days).ann_roc ≤ 500 ∧
    (¬ 0 < age_days →
      (analyze_position entry_price mark contracts account_size entry_iv iv
        age_days).ann_ret = 0 ∧
      (analyze_position entry_price mark contracts account_size entry_iv iv
        age_days).ann_roc = 0) := by
  unfold analyze_position
  dsimp only
  refine ⟨?_, ?_, ?_, ?_, ?_, ?_⟩
  · intro hage
    rw [if_pos hage]
  · exact le_max_right _ _
  · exact max_le (le_trans (min_le_right _ _) (by norm_num)) (by norm_num)
  · exact le_max_right _ _
  · exact max_le (le_trans (min_le_right _ _) (by norm_num)) (by norm_num)
  · intro hage
    rw [if_neg hage, if_neg hage]
    constructor <;>
      · rw [min_eq_left (by norm_num), max_eq_left (by norm_num)]

-- --- Normalizer lemmas --------------------------------------------------------

theorem except_bind_ok {ε α β : Type} (a : α) (f : α → Except ε β) :
    (Except.ok a >>= f) = f a := rfl

theorem except_bind_error {ε α β : Type} (e : ε) (f : α → Except ε β) :
    ((Except.error e : Except ε α) >>= f) = Except.error e := rfl

theorem except_pure {ε α : Type} (a : α) : (pure a : Except ε α) = Except.ok a := rfl

theorem mkLegEvent_invariant {a : String} {oid : Option String} {dt : PyDateTime}
    {fp : Rat} {lfs : List (String × JVal)} {opt : String} {u : JVal}
    {e : SDate} {k : Rat} {ev : TradeEvent}
    (h : mkLegEvent a oid dt fp lfs opt u e k = some ev) :
    0 < ev.quantity ∧ ev.option_type = opt := by
  simp only [mkLegEvent] at h
  split at h
  · exact absurd h (by simp)
  · split at h
    · exact absurd h (by simp)
    · rename_i hq _
      injection h with h
      subst h
      refine ⟨?_, rfl⟩
      dsimp only
      omega

theorem except_bind_eq_ok {ε α β : Type} {x : Except ε α} {f : α → Except ε β} {b : β}
    (h : (x >>= f) = .ok b) : ∃ a, x = .ok a ∧ f a = .ok b := by
  cases x with
  | ok a => exact ⟨a, rfl, h⟩
  | error e => cases h

theorem processLeg_invariant (a : String) (oid : Option String) (dt : PyDateTime)
    (fp : Rat) (leg : JVal) (ev : TradeEvent)
    (h : processLeg a oid dt fp leg = .ok (some ev)) :
    0 < ev.quantity ∧ (ev.option_type = "CALL" ∨ ev.option_type = "PUT") := by
  cases leg with
  | obj lfs =>
      unfold processLeg at h
      dsimp only at h
      cases hio : pyOr (dictGet lfs "instrument") (JVal.obj []) with
      | obj ifs =>
          rw [hio] at h
          simp only [except_bind_ok] at h
          split at h
          · simp [except_pure] at h
          · split at h
            · simp [except_pure] at h
            · split at h
              · simp [except_pure] at h
              · obtain ⟨pair, -, h⟩ := except_bind_eq_ok h
                try dsimp only at h
                split at h
                · try rw [except_pure] at h
                  injection h with h
                  obtain ⟨h1, h2⟩ := mkLegEvent_invariant h
                  refine ⟨h1, ?_⟩
                  rw [h2]
                  split <;> simp
                · simp [except_pure] at h
      | null => rw [hio] at h; simp [except_bind_error] at h
      | bool b => rw [hio] at h; simp [except_bind_error] at h
      | num q => rw [hio] at h; simp [except_bind_error] at h
      | str s => rw [hio] at h; simp [except_bind_error] at h
      | arr xs => rw [hio] at h; simp [except_bind_error] at h
  | null => simp [processLeg] at h
  | bool b => simp [processLeg] at h
  | num q => simp [processLeg] at h
  | str s => simp [processLeg] at h
  | arr xs => simp [processLeg] at h

theorem processLegs_invariant (a : String) (oid : Option String) (dt : PyDateTime)
    (fp : Rat) : ∀ (legs : List JVal) (evs : List TradeEvent),
    processLegs a oid dt fp legs = .ok evs →
    ∀ ev ∈ evs, 0 < ev.quantity ∧ (ev.option_type = "CALL" ∨ ev.option_type = "PUT") := by
  intro legs
  induction legs with
  | nil =>
      intro evs h
      unfold processLegs at h
      injection h with h
      subst h
      intro ev hev
      cases hev
  | cons leg rest ih =>
      intro evs h
      unfold processLegs at h
      obtain ⟨ev?, hleg, h⟩ := except_bind_eq_ok h
      obtain ⟨more, hrest, h⟩ := except_bind_eq_ok h
      try rw [except_pure] at h
      injection h with h
      subst h
      intro ev hev
      cases ev? with
      | none => exact ih more hrest ev (by simpa using hev)
      | some e0 =>
          rcases List.mem_cons.mp (by simpa using hev) with rfl | hm
          · exact processLeg_invariant _ _ _ _ _ _ hleg
          · exact ih more hrest ev hm

theorem processOrder_invariant (a : String) (order : JVal) (evs : List TradeEvent)
    (h : processOrder a order = .ok evs) :
    ∀ ev ∈ evs, 0 < ev.quantity ∧ (ev.option_type = "CALL" ∨ ev.option_type = "PUT") := by
  cases order with
  | obj fs =>
      unfold processOrder at h
      dsimp only at h
      split at h
      · try rw [except_pure] at h
        injection h with h
        subst h
        intro ev hev
        cases hev
      · split at h
        all_goals obtain ⟨dt?, -, h⟩ := except_bind_eq_ok h
        all_goals split at h
        all_goals try (
          rw [except_pure] at h;
          injection h with h;
          subst h;
          intro ev hev;
          cases hev)
        all_goals split at h
        all_goals try (
          rw [except_pure] at h;
          injection h with h;
          subst h;
          intro ev hev;
          cases hev)
        all_goals (
          obtain ⟨fp, -, h⟩ := except_bind_eq_ok h;
          exact processLegs_invariant _ _ _ _ _ _ h)
  | null => simp [processOrder] at h
  | bool b => simp [processOrder] at h
  | num q => simp [processOrder] at h
  | str s => simp [processOrder] at h
  | arr xs => simp [processOrder] at h

theorem processOrders_invariant (a : String) : ∀ (orders : List JVal)
    (evs : List TradeEvent), processOrders a orders = .ok evs →
    ∀ ev ∈ evs, 0 < ev.quantity ∧ (ev.option_type = "CALL" ∨ ev.option_type = "PUT") := by
  intro orders
  induction orders with
  | nil =>
      intro evs h
      injection h with h
      subst h
      intro ev hev
      cases hev
  | cons o rest ih =>
      intro evs h
      unfold processOrders at h
      obtain ⟨evs1, ho, h⟩ := except_bind_eq_ok h
      obtain ⟨more, hrest, h⟩ := except_bind_eq_ok h
      try rw [except_pure] at h
      injection h with h
      subst h
      intro ev hev
      rcases List.mem_append.mp hev with hm | hm
      · exact processOrder_invariant _ _ _ ho ev hm
      · exact ih more hrest ev hm

/-- C9 (amended): every `TradeEvent` the normalizer emits has positive
quantity and option kind CALL or PUT. (The strike-positivity part of the
claim is false on the code — see the counterexample — because neither the
`strikePrice` field nor the OCC fallback is checked for positivity.) -/
theorem normalize_event_invariant (acct : String) (raw : JVal)
    (evs : List TradeEvent) (h : normalize_orders_json acct raw = .ok evs) :
    ∀ ev ∈ evs, 0 < ev.quantity ∧
      (ev.option_type = "CALL" ∨ ev.option_type = "PUT") := by
  cases raw with
  | arr orders => exact processOrders_invariant acct orders evs h
  | null => injection h with h; subst h; intro ev hev; cases hev
  | bool b => injection h with h; subst h; intro ev hev; cases hev
  | num q => injection h with h; subst h; intro ev hev; cases hev
  | str s => injection h with h; subst h; intro ev hev; cases hev
  | obj fs => injection h with h; subst h; intro ev hev; cases hev

/-- A FILLED one-leg option order whose `strikePrice` field is 0: the
normalizer emits it without any positivity check on the strike. -/
def strikeZeroPayload : JVal := .arr [.obj [
  ("status", .str "FILLED"),
  ("enteredTime", .str "2025-12-02T14:31:19+0000"),
  ("orderLegCollection", .arr [.obj [
    ("orderLegType", .str "OPTION"),
    ("instrument", .obj [
      ("assetType", .str "OPTION"),
      ("putCall", .str "PUT"),
      ("underlyingSymbol", .str "XYZ"),
      ("maturityDate", .str "2025-12-19"),
      ("strikePrice", .num 0)]),
    ("quantity", .num 2),
    ("instruction", .str "SELL_TO_OPEN"),
    ("positionEffect", .str "OPENING")]])]]

/-- C9 counterexample: the claim "every emitted event has strike > 0" is
false — `strikeZeroPayload` normalizes to exactly one event whose strike
is 0. -/
theorem normalize_zero_strike_cex :
    ¬ (∀ (evs : List TradeEvent),
        normalize_orders_json "acct" strikeZeroPayload = .ok evs →
        ∀ ev ∈ evs, 0 < ev.strike) := by
  intro hcl
  have h0 : (normalize_orders_json "acct" strikeZeroPayload).map
      (List.map TradeEvent.strike) = .ok [0] := by
    with_unfolding_all decide
  cases hn : normalize_orders_json "acct" strikeZeroPayload with
  | error e => rw [hn] at h0; cases h0
  | ok evs =>
      rw [hn] at h0
      simp only [Except.map] at h0
      injection h0 with h0
      have hone := hcl evs hn
      cases evs with
      | nil => cases h0
      | cons e rest =>
          simp only [List.map_cons, List.cons.injEq] at h0
          have hq := hone e (List.mem_cons_self _ _)
          rw [h0.1] at hq
          exact absurd hq (by norm_num)

-- --- Shape conditions under which the normalizer cannot raise ----------------

def JVal.isArr : JVal → Bool
  | .arr _ => true
  | _ => false

/-- Values on which Python `len()` works, or that are falsy (so the code
never calls `len` on them). -/
def valueLenSafe : JVal → Bool
  | .str _ => true
  | .arr _ => true
  | .obj _ => true
  | v => !pyTruthy v

/-- Values that are strings or falsy (safe for `_parse_schwab_datetime`). -/
def dtValueSafe : JVal → Bool
  | .str _ => true
  | v => !pyTruthy v

/-- A leg that cannot raise: an object whose truthy `instrument` is an
object and whose instrument `symbol` is len-safe. -/
def legShapeOk : JVal → Bool
  | .obj lfs =>
      match pyOr (dictGet lfs "instrument") (.obj []) with
      | .obj ifs => valueLenSafe (dictGet ifs "symbol")
      | _ => false
  | _ => false

def activityShapeOk : JVal → Bool
  | .obj _ => true
  | _ => false

/-- An order that cannot raise: an object with a string-or-falsy timestamp,
object activity entries, and well-shaped legs. -/
def orderShapeOk : JVal → Bool
  | .obj fs =>
      dtValueSafe (enteredValue fs) &&
      (match dictGet fs "orderActivityCollection" with
       | .arr acts => acts.all activityShapeOk
       | _ => true) &&
      (match pyOr (dictGet fs "orderLegCollection") (.arr []) with
       | .arr legs => legs.all legShapeOk
       | _ => true)
  | _ => false

/-- A payload on which `normalize_orders_json` cannot raise. -/
def wellShapedPayload : JVal → Bool
  | .arr orders => orders.all orderShapeOk
  | _ => true

theorem parseSchwabOfJVal_safe {v : JVal} (h : dtValueSafe v = true) :
    ∃ o, parseSchwabOfJVal v = .ok o := by
  cases v with
  | str s => exact ⟨_, rfl⟩
  | null => exact ⟨none, rfl⟩
  | bool b =>
      simp only [dtValueSafe, Bool.not_eq_true'] at h
      exact ⟨none, by simp [parseSchwabOfJVal, h]⟩
  | num q =>
      simp only [dtValueSafe, Bool.not_eq_true'] at h
      exact ⟨none, by simp [parseSchwabOfJVal, h]⟩
  | arr xs =>
      simp only [dtValueSafe, Bool.not_eq_true'] at h
      exact ⟨none, by simp [parseSchwabOfJVal, h]⟩
  | obj fs =>
      simp only [dtValueSafe, Bool.not_eq_true'] at h
      exact ⟨none, by simp [parseSchwabOfJVal, h]⟩

theorem parseOccOfJVal_safe {v : JVal} (h : valueLenSafe v = true) :
    ∃ o, parseOccOfJVal v = .ok o := by
  cases v with
  | str s => exact ⟨_, rfl⟩
  | arr xs => exact ⟨none, rfl⟩
  | obj fs => exact ⟨none, rfl⟩
  | null => exact ⟨none, rfl⟩
  | bool b =>
      simp only [valueLenSafe, Bool.not_eq_true'] at h
      exact ⟨none, by simp [parseOccOfJVal, h]⟩
  | num q =>
      simp only [valueLenSafe, Bool.not_eq_true'] at h
      exact ⟨none, by simp [parseOccOfJVal, h]⟩

theorem legPair_safe {ifs : List (String × JVal)}
    (h : valueLenSafe (dictGet ifs "symbol") = true)
    (e0 : Option SDate) (s0 : Option Rat) :
    ∃ o, legPair ifs e0 s0 = .ok o := by
  unfold legPair
  split
  · dsimp only
    split
    · exact parseOccOfJVal_safe h
    · exact ⟨none, rfl⟩
  · exact ⟨none, rfl⟩

theorem scanActivities_safe (fp : Rat) : ∀ (acts : List JVal),
    acts.all activityShapeOk = true → ∃ r, scanActivities fp acts = .ok r := by
  intro acts
  induction acts generalizing fp with
  | nil => intro _; exact ⟨fp, rfl⟩
  | cons act rest ih =>
      intro hall
      rw [List.all_cons, Bool.and_eq_true] at hall
      cases act with
      | obj afs =>
          unfold scanActivities
          dsimp only
          split
          · split
            · split
              · exact ⟨_, rfl⟩
              · exact ih _ hall.2
            · exact ih _ hall.2
          · exact ih _ hall.2
      | null => simp [activityShapeOk] at hall
      | bool b => simp [activityShapeOk] at hall
      | num q => simp [activityShapeOk] at hall
      | str s => simp [activityShapeOk] at hall
      | arr xs => simp [activityShapeOk] at hall

theorem computeFillPrice_safe {fs : List (String × JVal)}
    (hacts : (match dictGet fs "orderActivityCollection" with
      | .arr acts => acts.all activityShapeOk
      | _ => true) = true) :
    ∃ fp, computeFillPrice fs = .ok fp := by
  unfold computeFillPrice
  cases hv : dictGet fs "orderActivityCollection" with
  | arr xs =>
      rw [hv] at hacts
      by_cases hx : pyTruthy (JVal.arr xs) = true
      · rw [show pyOr (JVal.arr xs) (JVal.arr []) = JVal.arr xs from by
          unfold pyOr; rw [if_pos hx]]
        obtain ⟨r, hr⟩ := scanActivities_safe 0 xs hacts
        dsimp only
        rw [hr, except_bind_ok]
        split
        · exact ⟨_, rfl⟩
        · exact ⟨_, rfl⟩
      · rw [show pyOr (JVal.arr xs) (JVal.arr []) = JVal.arr [] from by
          unfold pyOr; rw [if_neg hx]]
        dsimp only
        rw [show scanActivities 0 ([] : List JVal) = Except.ok (0 : Rat) from rfl,
          except_bind_ok]
        split
        · exact ⟨_, rfl⟩
        · exact ⟨_, rfl⟩
  | null =>
      rw [show pyOr JVal.null (JVal.arr []) = JVal.arr [] from rfl]
      dsimp only
      rw [show scanActivities 0 ([] : List JVal) = Except.ok (0 : Rat) from rfl,
        except_bind_ok]
      split
      · exact ⟨_, rfl⟩
      · exact ⟨_, rfl⟩
  | bool b =>
      by_cases hb : pyTruthy (JVal.bool b) = true
      · rw [show pyOr (JVal.bool b) (JVal.arr []) = JVal.bool b from by
          unfold pyOr; rw [if_pos hb]]
        dsimp only
        rw [except_bind_ok]
        split
        · exact ⟨_, rfl⟩
        · exact ⟨_, rfl⟩
      · rw [show pyOr (JVal.bool b) (JVal.arr []) = JVal.arr [] from by
          unfold pyOr; rw [if_neg hb]]
        dsimp only
        rw [show scanActivities 0 ([] : List JVal) = Except.ok (0 : Rat) from rfl,
          except_bind_ok]
        split
        · exact ⟨_, rfl⟩
        · exact ⟨_, rfl⟩
  | num q =>
      by_cases hb : pyTruthy (JVal.num q) = true
      · rw [show pyOr (JVal.num q) (JVal.arr []) = JVal.num q from by
          unfold pyOr; rw [if_pos hb]]
        dsimp only
        rw [except_bind_ok]
        split
        · exact ⟨_, rfl⟩
        · exact ⟨_, rfl⟩
      · rw [show pyOr (JVal.num q) (JVal.arr []) = JVal.arr [] from by
          unfold pyOr; rw [if_neg hb]]
        dsimp only
        rw [show scanActivities 0 ([] : List JVal) = Except.ok (0 : Rat) from rfl,
          except_bind_ok]
        split
        · exact ⟨_, rfl⟩
        · exact ⟨_, rfl⟩
  | str s =>
      by_cases hb : pyTruthy (JVal.str s) = true
      · rw [show pyOr (JVal.str s) (JVal.arr []) = JVal.str s from by
          unfold pyOr; rw [if_pos hb]]
        dsimp only
        rw [except_bind_ok]
        split
        · exact ⟨_, rfl⟩
        · exact ⟨_, rfl⟩
      · rw [show pyOr (JVal.str s) (JVal.arr []) = JVal.arr [] from by
          unfold pyOr; rw [if_neg hb]]
        dsimp only
        rw [show scanActivities 0 ([] : List JVal) = Except.ok (0 : Rat) from rfl,
          except_bind_ok]
        split
        · exact ⟨_, rfl⟩
        · exact ⟨_, rfl⟩
  | obj ofs =>
      by_cases hb : pyTruthy (JVal.obj ofs) = true
      · rw [show pyOr (JVal.obj ofs) (JVal.arr []) = JVal.obj ofs from by
          unfold pyOr; rw [if_pos hb]]
        dsimp only
        rw [except_bind_ok]
        split
        · exact ⟨_, rfl⟩
        · exact ⟨_, rfl⟩
      · rw [show pyOr (JVal.obj ofs) (JVal.arr []) = JVal.arr [] from by
          unfold pyOr; rw [if_neg hb]]
        dsimp only
        rw [show scanActivities 0 ([] : List JVal) = Except.ok (0 : Rat) from rfl,
          except_bind_ok]
        split
        · exact ⟨_, rfl⟩
        · exact ⟨_, rfl⟩

theorem processLeg_safe (a : String) (oid : Option String) (dt : PyDateTime)
    (fp : Rat) {leg : JVal} (hshape : legShapeOk leg = true) :
    ∃ r, processLeg a oid dt fp leg = .ok r := by
  cases leg with
  | obj lfs =>
      unfold processLeg
      dsimp only
      simp only [legShapeOk] at hshape
      cases hio : pyOr (dictGet lfs "instrument") (JVal.obj []) with
      | obj ifs =>
          rw [hio] at hshape
          simp only [except_bind_ok]
          split
          · exact ⟨_, rfl⟩
          · split
            · exact ⟨_, rfl⟩
            · split
              · exact ⟨_, rfl⟩
              · obtain ⟨pr, hpr⟩ := legPair_safe hshape
                  (legExpiration0 ifs) (legStrike0 ifs)
                rw [hpr, except_bind_ok]
                try dsimp only
                split
                · exact ⟨_, rfl⟩
                · exact ⟨_, rfl⟩
      | null => rw [hio] at hshape; simp at hshape
      | bool b => rw [hio] at hshape; simp at hshape
      | num q => rw [hio] at hshape; simp at hshape
      | str s => rw [hio] at hshape; simp at hshape
      | arr xs => rw [hio] at hshape; simp at hshape
  | null => simp [legShapeOk] at hshape
  | bool b => simp [legShapeOk] at hshape
  | num q => simp [legShapeOk] at hshape
  | str s => simp [legShapeOk] at hshape
  | arr xs => simp [legShapeOk] at hshape

theorem processLegs_safe (a : String) (oid : Option String) (dt : PyDateTime)
    (fp : Rat) : ∀ (legs : List JVal), legs.all legShapeOk = true →
    ∃ evs, processLegs a oid dt fp legs = .ok evs := by
  intro legs
  induction legs with
  | nil => intro _; exact ⟨[], rfl⟩
  | cons leg rest ih =>
      intro hall
      rw [List.all_cons, Bool.and_eq_true] at hall
      obtain ⟨r1, h1⟩ := processLeg_safe a oid dt fp hall.1
      obtain ⟨r2, h2⟩ := ih hall.2
      unfold processLegs
      rw [h1, except_bind_ok, h2, except_bind_ok]
      exact ⟨_, rfl⟩

theorem processOrder_safe (a : String) {order : JVal}
    (hshape : orderShapeOk order = true) :
    ∃ evs, processOrder a order = .ok evs := by
  cases order with
  | obj fs =>
      unfold orderShapeOk at hshape
      rw [Bool.and_eq_true, Bool.and_eq_true] at hshape
      obtain ⟨⟨hdt, hacts⟩, hlegs⟩ := hshape
      unfold processOrder
      dsimp only
      split
      · exact ⟨_, rfl⟩
      · split
        · obtain ⟨o, ho⟩ := parseSchwabOfJVal_safe hdt
          rw [ho, except_bind_ok]
          split
          · exact ⟨_, rfl⟩
          · split
            · rename_i legs0 heq
              rw [heq] at hlegs
              obtain ⟨fp, hfp⟩ := computeFillPrice_safe hacts
              obtain ⟨evs, hevs⟩ := processLegs_safe a _ _ fp legs0 hlegs
              rw [hfp, except_bind_ok, hevs]
              exact ⟨_, rfl⟩
            · exact ⟨_, rfl⟩
        · simp only [except_pure, except_bind_ok]
          exact ⟨_, rfl⟩
  | null => simp [orderShapeOk] at hshape
  | bool b => simp [orderShapeOk] at hshape
  | num q => simp [orderShapeOk] at hshape
  | str s => simp [orderShapeOk] at hshape
  | arr xs => simp [orderShapeOk] at hshape

theorem processOrders_safe (a : String) : ∀ (orders : List JVal),
    orders.all orderShapeOk = true →
    ∃ evs, processOrders a orders = .ok evs := by
  intro orders
  induction orders with
  | nil => intro _; exact ⟨[], rfl⟩
  | cons o rest ih =>
      intro hall
      rw [List.all_cons, Bool.and_eq_true] at hall
      obtain ⟨e1, h1⟩ := processOrder_safe a hall.1
      obtain ⟨e2, h2⟩ := ih hall.2
      unfold processOrders
      rw [h1, except_bind_ok, h2, except_bind_ok]
      exact ⟨_, rfl⟩

/-- C7 (amended): on well-shaped payloads (orders, activities, legs and
truthy instruments are objects; timestamp and instrument-symbol values are
strings when truthy) the normalizer returns a list and never raises; a
non-list payload yields the empty list; a non-FILLED order contributes no
events; and an order whose resolved timestamp string fails to parse is
skipped together with all its legs. Outside these shapes the function can
raise (see the counterexample). -/
theorem normalize_total_on_wellshaped :
    (∀ (acct : String) (raw : JVal), wellShapedPayload raw = true →
      ∃ evs, normalize_orders_json acct raw = .ok evs) ∧
    (∀ (acct : String) (raw : JVal), raw.isArr = false →
      normalize_orders_json acct raw = .ok []) ∧
    (∀ (acct : String) (fs : List (String × JVal)),
      asciiUpper (pyStr (dictGetD fs "status" (.str ""))) ≠ "FILLED" →
      processOrder acct (.obj fs) = .ok []) ∧
    (∀ (acct : String) (fs : List (String × JVal)) (s : String),
      enteredValue fs = .str s → parseSchwabDatetime s = none →
      processOrder acct (.obj fs) = .ok []) := by
  refine ⟨?_, ?_, ?_, ?_⟩
  · intro acct raw hshape
    cases raw with
    | arr orders => exact processOrders_safe acct orders hshape
    | null => exact ⟨[], rfl⟩
    | bool b => exact ⟨[], rfl⟩
    | num q => exact ⟨[], rfl⟩
    | str s => exact ⟨[], rfl⟩
    | obj fs => exact ⟨[], rfl⟩
  · intro acct raw hraw
    cases raw with
    | arr orders => simp [JVal.isArr] at hraw
    | null => rfl
    | bool b => rfl
    | num q => rfl
    | str s => rfl
    | obj fs => rfl
  · intro acct fs hstatus
    unfold processOrder
    dsimp only
    rw [if_pos hstatus]
    rfl
  · intro acct fs s hs hparse
    unfold processOrder
    dsimp only
    split
    · rfl
    · rw [hs]
      split
      · rw [show parseSchwabOfJVal (JVal.str s) = .ok (parseSchwabDatetime s) from rfl,
          hparse, except_bind_ok]
        rfl
      · simp only [except_pure, except_bind_ok]

/-- C7 counterexample: on a payload whose order element is not an object,
`normalize_orders_json` raises an uncaught `AttributeError` (here: the
`error` result) instead of returning a list of events. -/
theorem normalize_raises_on_nonobject_order :
    normalize_orders_json "acct" (.arr [.num 5]) = .error "AttributeError" := by
  with_unfolding_all decide

-- --- Concrete data for witnesses ----------------------------------------------

/-- A database holding one CLOSED position row. -/
def closedRow : Position :=
  { id := 1, symbol := "XYZ", strategy := "ShortPut", contracts := -2,
    status := "CLOSED", strike := 50, expiration := "2025-12-19",
    entry_price := 3/2, mark := 3/2, total_credit := 300, total_debit := 0,
    commissions := 0, fees := 0, entry_date := "2025-12-02T14:31:19Z",
    last_updated := "2025-12-02T14:31:19Z" }

def closedDB : DB :=
  { positions := [closedRow], trades := [], nextPositionId := 2, nextTradeId := 1 }

/-- The single event `strikeZeroPayload` normalizes to. -/
def strikeZeroEvent : TradeEvent :=
  { account_number := "acct", symbol := "XYZ", option_type := "PUT", strike := 0,
    expiration := ⟨2025, 12, 19⟩, direction := "SELL", open_close := "OPENING",
    quantity := 2, price := 0, commissions := 0, fees := 0,
    trade_datetime := ⟨⟨2025, 12, 2⟩, 14, 31, 19, 0, some 0⟩,
    underlying_price := none, schwab_order_id := none, schwab_leg_id := none }

-- --- Witnesses ----------------------------------------------------------------

/-- C2 witness: Scenario A's event applied to the empty database and then
re-applied: the second call is a no-op duplicate and exactly one trades
row carries the natural key. -/
theorem reapply_same_event_is_noop_witness :
    apply_trade_event_to_db (apply_trade_event_to_db emptyDB sampleEvent false).1
        sampleEvent false
      = ((apply_trade_event_to_db emptyDB sampleEvent false).1, .duplicate) ∧
    ((apply_trade_event_to_db emptyDB sampleEvent false).1.trades.filter fun t =>
      decide (t.position_id = 1 ∧
        t.trade_datetime = strftimeZ sampleEvent.trade_datetime ∧
        t.action = "SELL_OPEN" ∧ t.contracts = -2 ∧
        t.price = sampleEvent.price)).length = 1 :=
  reapply_same_event_is_noop emptyDB sampleEvent "SELL_OPEN" _ 1 (-2) 1
    (by with_unfolding_all decide) (by with_unfolding_all decide)

/-- C3 witness: the invariant evaluated over a one-event batch from the
empty database. -/
theorem identity_key_unique_invariant_witness :
    IdentityKeyUnique (apply_events emptyDB [sampleEvent] false).1 :=
  identity_key_unique_invariant.1 emptyDB [sampleEvent] false
    (by with_unfolding_all decide)

/-- C5 witness: conservation over a one-event batch from the empty database. -/
theorem applied_updates_and_conservation_witness :
    contractsOf (apply_events emptyDB [sampleEvent] false).1 1 =
      contractsOf emptyDB 1 +
        traceDelta 1 (apply_events emptyDB [sampleEvent] false).2 :=
  applied_updates_and_conservation.2 emptyDB [sampleEvent] 1
    (by with_unfolding_all decide)

/-- C6 witness: a CLOSED row is preserved verbatim by an apply call. -/
theorem closed_positions_immutable_witness :
    (apply_trade_event_to_db closedDB sampleEvent false).1.positions[0]?
      = some closedRow :=
  (closed_positions_immutable closedDB sampleEvent false).1 0 closedRow
    (by with_unfolding_all decide) (by with_unfolding_all decide)

/-- C7 witness: the well-shaped sample payload normalizes without raising. -/
theorem normalize_total_on_wellshaped_witness :
    ∃ evs, normalize_orders_json "acct" strikeZeroPayload = .ok evs :=
  normalize_total_on_wellshaped.1 "acct" strikeZeroPayload
    (by with_unfolding_all decide)

/-- C8 witness: the clamp equation and lower bound at concrete inputs
(entry 1, mark 2, 3 contracts, age 1 day). -/
theorem annualized_return_clamped_witness :
    (analyze_position 1 2 3 1 0 0 1).ann_ret =
      max (min (((1 + (analyze_position 1 2 3 1 0 0 1).ret_pct / 100)
        ^ ((365 : ℝ) / ((1 : ℤ) : ℝ)) - 1) * 100) 500) (-500) ∧
    -500 ≤ (analyze_position 1 2 3 1 0 0 1).ann_ret :=
  ⟨(annualized_return_clamped 1 2 3 1 0 0 1).1 (by norm_num),
   (annualized_return_clamped 1 2 3 1 0 0 1).2.1⟩

set_option maxRecDepth 8000 in
/-- C9 witness: the event emitted for the sample payload has positive
quantity and a CALL/PUT kind. -/
theorem normalize_event_invariant_witness :
    0 < strikeZeroEvent.quantity ∧
    (strikeZeroEvent.option_type = "CALL" ∨ strikeZeroEvent.option_type = "PUT") :=
  normalize_event_invariant "acct" strikeZeroPayload [strikeZeroEvent]
    (by with_unfolding_all decide) strikeZeroEvent (List.mem_singleton_self _)

/-- C10 witness: re-presenting Scenario A's event in dry-run mode after it
was applied returns `duplicate` with the database unchanged. -/
theorem duplicate_short_circuits_witness :
    apply_trade_event_to_db (apply_trade_event_to_db emptyDB sampleEvent false).1
        sampleEvent true
      = ((apply_trade_event_to_db emptyDB sampleEvent false).1, .duplicate) :=
  duplicate_short_circuits _ sampleEvent "SELL_OPEN"
    (by with_unfolding_all decide) (by with_unfolding_all decide)
    (by with_unfolding_all decide) true

end OPM
